import Mathlib

/-!
# Reactive explorer controller (`src/src/navigate.cpp`)

A shallow embedding of `ExplorerRobot` from `navigate.cpp`: the two angle
normalisers `correctAnglePos` / `correctAngleNeg`, one iteration of the
`while (ros::ok())` loop of `move`, and the depth image callback `getImage`.

Numbers: the C++ `double`/`float` values are read as exact numbers.  Every
definition is generic over a linearly ordered field `α` with a floor function,
so it runs on `ℚ` and the theorems also cover `ℝ`.  Rounding (in particular the
narrowing of `turning_angle` to `float`) is outside the model.

Randomness: `distrib(gen)` is called in one place only; the value it would return
is an argument `draw` of the iteration.

Memory: `getImage` reads the image buffer through a cast pointer.  The buffer is a
list of samples, a read outside it makes the callback return `none`, and indices are
exact integers.  The cast of the `16UC1` branch (line 108) does not yield a pointer to
the buffer, and the embedding keeps that: every read of that branch is outside it.

Layout: the embedding and some sample inputs come first, then lemmas on the
normalisers and on each block of the loop body, then the claims.
-/

namespace ExplorerRobot

variable {α : Type} [LinearOrderedField α]

/-! ## Constants of the class -/

/-- The member `double linear_speed = 0.3;` (never reassigned). -/
def linear_speed : α := 0.3

/-- The member `double angular_speed = 1;` (never reassigned). -/
def angular_speed : α := 1

/-! ## Angle normalisers -/

/-- First loop of `correctAnglePos`: `while (a > 6.28) { a -= 6.28; }`. -/
def posSubLoop [FloorRing α] (a : α) : α :=
  if a > 6.28 then posSubLoop (a - 6.28) else a
termination_by (⌊a / 6.28⌋).toNat
decreasing_by
  have hp : (0 : α) < 6.28 := by norm_num
  have e : (a - 6.28) / 6.28 = a / 6.28 - 1 := by field_simp
  have h1 : (1 : ℤ) ≤ ⌊a / 6.28⌋ := by
    rw [Int.le_floor]
    rw [le_div_iff₀ hp]
    push_cast
    linarith
  rw [e, Int.floor_sub_one]
  omega

/-- Second loop of `correctAnglePos`: `while (a < 0) { a += 6.28; }`. -/
def posAddLoop [FloorRing α] (a : α) : α :=
  if a < 0 then posAddLoop (a + 6.28) else a
termination_by (⌈-a / 6.28⌉).toNat
decreasing_by
  have hp : (0 : α) < 6.28 := by norm_num
  have e : -(a + 6.28) / 6.28 = -a / 6.28 - 1 := by field_simp; ring
  have h1 : (0 : ℤ) < ⌈-a / 6.28⌉ := by
    rw [Int.ceil_pos]
    apply div_pos _ hp
    linarith
  rw [e, Int.ceil_sub_one]
  omega

/-- The method `correctAnglePos`: the two loops in sequence, then `return a`. -/
def correctAnglePos [FloorRing α] (a : α) : α :=
  posAddLoop (posSubLoop a)

/-- First loop of `correctAngleNeg`: `while (a > 0) { a -= 6.28; }`. -/
def negSubLoop [FloorRing α] (a : α) : α :=
  if a > 0 then negSubLoop (a - 6.28) else a
termination_by (⌈a / 6.28⌉).toNat
decreasing_by
  have h : a > 0 := by assumption
  have hp : (0 : α) < 6.28 := by norm_num
  have e : (a - 6.28) / 6.28 = a / 6.28 - 1 := by field_simp
  have h1 : (0 : ℤ) < ⌈a / 6.28⌉ := by
    rw [Int.ceil_pos]
    exact div_pos h hp
  rw [e, Int.ceil_sub_one]
  omega

/-- Second loop of `correctAngleNeg`: `while (a < -6.28) { a += 6.28; }`. -/
def negAddLoop [FloorRing α] (a : α) : α :=
  if a < -6.28 then negAddLoop (a + 6.28) else a
termination_by (⌊-a / 6.28⌋).toNat
decreasing_by
  have hp : (0 : α) < 6.28 := by norm_num
  have e : -(a + 6.28) / 6.28 = -a / 6.28 - 1 := by field_simp; ring
  have h1 : (1 : ℤ) ≤ ⌊-a / 6.28⌋ := by
    rw [Int.le_floor]
    rw [le_div_iff₀ hp]
    push_cast
    linarith
  rw [e, Int.floor_sub_one]
  omega

/-- The method `correctAngleNeg`: the two loops in sequence, then `return a`. -/
def correctAngleNeg [FloorRing α] (a : α) : α :=
  negAddLoop (negSubLoop a)

/-! ## State read and written by `move` -/

/-- The data members of `ExplorerRobot` that `move` reads.  They are written
only by the subscriber callbacks (`getPosition`, `getInputs`, `getBumper`,
`getImage`), which run in `ros::spinOnce()` between two iterations, so they are
constant during one iteration.  (`bumper_side` is never read and is left out.) -/
structure Robot (α : Type) where
  pos_x : α
  pos_y : α
  angle : α
  keyboard_linear : α
  keyboard_angular : α
  bumper_state : Int
  right_min : α
  left_min : α

/-- The local variables of `move`.  `linear_wire` and `angular_wire` are
assigned at the top of every iteration and published at its end; the other five
are carried from one iteration to the next. -/
structure MoveVars (α : Type) where
  linear_wire : α
  angular_wire : α
  start_x : α
  start_y : α
  start_angle : α
  uninterrupted_turn : Bool
  turning_angle : α

/-- The locals of `move` when the loop is first entered (lines 132-143).  The two
wires are declared without a value; they are assigned before any read, and are
given `0` here. -/
def moveInit (r : Robot α) : MoveVars α :=
  { linear_wire := 0
    angular_wire := 0
    start_x := r.pos_x
    start_y := r.pos_y
    start_angle := r.angle
    uninterrupted_turn := false
    turning_angle := 0 }

/-! ## One iteration of the main loop, block by block -/

/-- The test `sqrt((pos_x-start_x)*(pos_x-start_x) + (pos_y-start_y)*(pos_y-start_y)) > 0.3048`.
The radicand is a sum of squares, and for the exact square root of a
non-negative `s`, `sqrt(s) > 0.3048` holds exactly when `s > 0.3048 * 0.3048`
(see `sqrt_gt_iff`), which is the form used here. -/
abbrev movedPast (r : Robot α) (v : MoveVars α) : Prop :=
  (r.pos_x - v.start_x) * (r.pos_x - v.start_x)
    + (r.pos_y - v.start_y) * (r.pos_y - v.start_y) > 0.3048 * 0.3048

/-- The value `d` is the distance `sqrt(...)` from the waypoint `(start_x, start_y)` to
the current position: the non-negative number whose square is the radicand. -/
def IsDisplacement (r : Robot α) (v : MoveVars α) (d : α) : Prop :=
  0 ≤ d ∧ d * d = (r.pos_x - v.start_x) * (r.pos_x - v.start_x)
    + (r.pos_y - v.start_y) * (r.pos_y - v.start_y)

/-- The test `abs(keyboard_linear) > 0.01 || abs(keyboard_angular) > 0.01`. -/
abbrev overrideActive (r : Robot α) : Prop :=
  |r.keyboard_linear| > 0.01 ∨ |r.keyboard_angular| > 0.01

/-- DRIVE FORWARD BEHAVIOR (lines 153-154). -/
def driveForward (v : MoveVars α) : MoveVars α :=
  { v with linear_wire := linear_speed, angular_wire := 0 }

/-- RANDOM TURN BEHAVIOR (lines 157-163).  `draw` is the value `distrib(gen)`
returns when it is called; it is used only inside the branch. -/
def randomTurn (r : Robot α) (draw : α) (v : MoveVars α) : MoveVars α :=
  if movedPast r v ∧ v.uninterrupted_turn = false ∧ r.left_min > 0.6 ∧ r.right_min > 0.6 then
    { v with turning_angle := draw, start_angle := r.angle, start_x := r.pos_x, start_y := r.pos_y }
  else v

/-- AVOID ASYMETRIC OBJECTS BEHAVIOR (lines 166-173). -/
def avoidAsymmetric (r : Robot α) (v : MoveVars α) : MoveVars α :=
  if r.left_min < 0.305 then
    { v with angular_wire := -angular_speed, linear_wire := linear_speed / 2 }
  else if r.right_min < 0.305 then
    { v with angular_wire := angular_speed, linear_wire := linear_speed / 2 }
  else v

/-- AVOID SYMETRIC OBJECTS BEHAVIOR (lines 177-181). -/
def avoidSymmetric (r : Robot α) (v : MoveVars α) : MoveVars α :=
  if r.left_min < 0.4 ∧ r.right_min < 0.4 ∧ v.uninterrupted_turn = false then
    { v with turning_angle := -3.14, start_angle := r.angle, uninterrupted_turn := true }
  else v

/-- The block "Don't move if turning" (lines 184-186). -/
def stopIfTurning (v : MoveVars α) : MoveVars α :=
  if v.uninterrupted_turn = true then { v with linear_wire := 0 } else v

/-- The turn block (lines 188-205). -/
def executeTurn [FloorRing α] (r : Robot α) (v : MoveVars α) : MoveVars α :=
  if v.turning_angle > 0 then
    if v.turning_angle > correctAnglePos (r.angle - v.start_angle) then
      { v with angular_wire := angular_speed }
    else
      { v with turning_angle := 0, uninterrupted_turn := false }
  else if v.turning_angle < 0 then
    if v.turning_angle < correctAngleNeg (r.angle - v.start_angle) then
      { v with angular_wire := -angular_speed }
    else
      { v with turning_angle := 0, uninterrupted_turn := false }
  else v

/-- ACCEPT KEYBOARD INPUTS (lines 208-213). -/
def acceptKeyboard (r : Robot α) (v : MoveVars α) : MoveVars α :=
  if overrideActive r then
    { v with linear_wire := r.keyboard_linear, angular_wire := r.keyboard_angular,
             turning_angle := 0, uninterrupted_turn := false }
  else v

/-- HALT (lines 216-219): `if (bumper_state) { linear_wire = 0; }`. -/
def halt (r : Robot α) (v : MoveVars α) : MoveVars α :=
  if r.bumper_state ≠ 0 then { v with linear_wire := 0 } else v

/-- The variables as they stand when control reaches the turn block (line 188). -/
def beforeTurn (r : Robot α) (draw : α) (v : MoveVars α) : MoveVars α :=
  stopIfTurning (avoidSymmetric r (avoidAsymmetric r (randomTurn r draw (driveForward v))))

/-- One iteration of `while (ros::ok())` (lines 152-219).  The message published at
the end of the iteration carries `linear_wire` and `angular_wire` of the result. -/
def tick [FloorRing α] (r : Robot α) (draw : α) (v : MoveVars α) : MoveVars α :=
  halt r (acceptKeyboard r (executeTurn r (beforeTurn r draw v)))

/-! ## Sample inputs -/

/-- The locals at loop entry for a robot standing at the origin with heading `0`. -/
def exVars : MoveVars ℚ :=
  { linear_wire := 0, angular_wire := 0, start_x := 0, start_y := 0, start_angle := 0,
    uninterrupted_turn := false, turning_angle := 0 }

/-- Keyboard command `(0.5, 0.2)` while the bumper is pressed; nothing in range. -/
def exOverrideBumped : Robot ℚ :=
  { pos_x := 0, pos_y := 0, angle := 0, keyboard_linear := 0.5, keyboard_angular := 0.2,
    bumper_state := 1, right_min := 10, left_min := 10 }

/-- Obstacles at `0.2` on both sides, no keyboard command, bumper released. -/
def exBoxedIn : Robot ℚ :=
  { pos_x := 0, pos_y := 0, angle := 0, keyboard_linear := 0, keyboard_angular := 0,
    bumper_state := 0, right_min := 0.2, left_min := 0.2 }

/-- Nothing in range (`10` / `10`), robot one metre from the waypoint of `exVars`. -/
def exClearMoved : Robot ℚ :=
  { pos_x := 1, pos_y := 0, angle := 0, keyboard_linear := 0, keyboard_angular := 0,
    bumper_state := 0, right_min := 10, left_min := 10 }

/-- Nothing in range (`10` / `10`), robot `0.3` from the waypoint of `exVars`. -/
def exClearNear : Robot ℚ :=
  { pos_x := 0.3, pos_y := 0, angle := 0, keyboard_linear := 0, keyboard_angular := 0,
    bumper_state := 0, right_min := 10, left_min := 10 }

/-- The locals of `exVars` with a committed half-turn in progress. -/
def exVarsTurning : MoveVars ℚ :=
  { exVars with uninterrupted_turn := true, turning_angle := -3.14 }

/-! ## The normaliser loops with an iteration budget -/

/-- The loop `while (a > 6.28) { a -= 6.28; }` run for at most `fuel` iterations of
its body: `some a` is the value on exit, `none` means the loop is still running when
the budget is used up. -/
def posSubLoopFuel : Nat → α → Option α
  | 0, a => if a > 6.28 then none else some a
  | fuel + 1, a => if a > 6.28 then posSubLoopFuel fuel (a - 6.28) else some a

/-- The loop `while (a < 0) { a += 6.28; }` with an iteration budget. -/
def posAddLoopFuel : Nat → α → Option α
  | 0, a => if a < 0 then none else some a
  | fuel + 1, a => if a < 0 then posAddLoopFuel fuel (a + 6.28) else some a

/-- The loop `while (a > 0) { a -= 6.28; }` with an iteration budget. -/
def negSubLoopFuel : Nat → α → Option α
  | 0, a => if a > 0 then none else some a
  | fuel + 1, a => if a > 0 then negSubLoopFuel fuel (a - 6.28) else some a

/-- The loop `while (a < -6.28) { a += 6.28; }` with an iteration budget. -/
def negAddLoopFuel : Nat → α → Option α
  | 0, a => if a < -6.28 then none else some a
  | fuel + 1, a => if a < -6.28 then negAddLoopFuel fuel (a + 6.28) else some a

/-- The body of `correctAnglePos` where each loop may run its body at most `fuel` times. -/
def correctAnglePosFuel (fuel : Nat) (a : α) : Option α :=
  (posSubLoopFuel fuel a).bind (posAddLoopFuel fuel)

/-- The body of `correctAngleNeg` where each loop may run its body at most `fuel` times. -/
def correctAngleNegFuel (fuel : Nat) (a : α) : Option α :=
  (negSubLoopFuel fuel a).bind (negAddLoopFuel fuel)

/-! ## Runs of the main loop -/

/-- The invariant of the turn variables: `turning_angle == 0` implies
`uninterrupted_turn == false`. -/
def TurnInv (v : MoveVars α) : Prop :=
  v.turning_angle = 0 → v.uninterrupted_turn = false

/-- Successive iterations of the main loop.  Each iteration sees the members as the
callbacks left them in the preceding `ros::spinOnce()` and its own random draw. -/
def runTicks [FloorRing α] (v : MoveVars α) : List (Robot α × α) → MoveVars α
  | [] => v
  | (r, draw) :: rest => runTicks (tick r draw v) rest

/-! ## The depth image callback `getImage` -/

/-- A value of type `float`: not-a-number, one of the two infinities, or a finite
number (read as an exact number). -/
inductive FloatVal (α : Type) where
  | nan : FloatVal α
  | posInf : FloatVal α
  | negInf : FloatVal α
  | fin : α → FloatVal α
  deriving DecidableEq

/-- The fields of `sensor_msgs::Image` that `getImage` uses.  `msg->data` is a byte
buffer: `floats` is the buffer read as `float`s, which is how the `32FC1` branch
reads it through its `const float*` (line 88); `words` is the buffer read as
`uint16_t`s, the samples a `16UC1` message carries.  The `16UC1` branch does not
obtain a pointer to the buffer (see `readWord`), so `getImage` never reads `words`.
`width` and `height` are the values of the `int` locals; `step` is read but not used. -/
structure ImageMsg (α : Type) where
  width : Int
  height : Int
  encoding : String
  floats : List (FloatVal α)
  words : List Nat

/-- The read `depth_data[i]`: `none` when `i` lies outside the buffer. -/
def readAt {β : Type} (buf : List β) (i : Int) : Option β :=
  if 0 ≤ i then buf[i.toNat]? else none

/-- The expression `depth_data[i]/2` of line 91. -/
def FloatVal.half : FloatVal α → FloatVal α
  | .nan => .nan
  | .posInf => .posInf
  | .negInf => .negInf
  | .fin x => .fin (x / 2)

/-- The decoded distance `d` at buffer index `i` in the `32FC1` branch (line 91). -/
def decode32 (msg : ImageMsg α) (i : Int) : Option (FloatVal α) :=
  (readAt msg.floats i).map FloatVal.half

/-- The read `depth_data[i]` in the `16UC1` branch.  Line 108 initialises the pointer
with `reinterpret_cast<const uint16_t>(&msg->data[0])`: the address of the buffer is
cast to the integer type `uint16_t`, not to `const uint16_t*` as the `32FC1` branch
does with `const float*` on line 88.  The statement is ill-formed; where a compiler
lets it through, `depth_data` holds the address cut down to 16 bits, which is not the
address of the buffer.  No index reaches a sample of the message through it, so every
read is a read outside the buffer. -/
def readWord (_msg : ImageMsg α) (_i : Int) : Option Nat :=
  none

/-- The decoded distance `d` at index `i` in the `16UC1` branch (line 111):
`static_cast<float>(depth_data[i]) / 2000.0f`, with the read of `readWord`. -/
def decode16 (msg : ImageMsg α) (i : Int) : Option (FloatVal α) :=
  (readWord msg i).map fun (n : Nat) => FloatVal.fin ((n : α) / 2000)

/-- The body of the inner loop once `d` is known (lines 92-103 and 112-123).
`left_min` and `right_min` hold finite numbers, so an infinite `d` never passes
`d < left_min` / `d < right_min` with a positive sign. -/
def sampleStep (width c : Int) (d : FloatVal α) (s : Robot α) : Robot α :=
  match d with
  | .nan => s
  | .negInf => s
  | .posInf => s
  | .fin x =>
    if x > 0 then
      if c < width.tdiv 2 then
        if x < s.left_min then { s with left_min := x } else s
      else
        if x < s.right_min then { s with right_min := x } else s
    else s

/-- The inner loop `for (int c = ..; c < width; c++)` of row `r`, entered at column
`c` with `n` iterations to go; `none` when a read falls outside the buffer. -/
def scanCols (dec : Int → Option (FloatVal α)) (width r : Int) :
    Nat → Int → Robot α → Option (Robot α)
  | 0, _, s => some s
  | n + 1, c, s =>
    match dec (c + r * width) with
    | none => none
    | some d => scanCols dec width r n (c + 1) (sampleStep width c d s)

/-- The outer loop `for (int r = ..; r <= mid_row+2; r++)`, entered at row `r` with
`k` iterations to go. -/
def scanRows (dec : Int → Option (FloatVal α)) (width : Int) :
    Nat → Int → Robot α → Option (Robot α)
  | 0, _, s => some s
  | k + 1, r, s =>
    match scanCols dec width r width.toNat 0 s with
    | none => none
    | some s' => scanRows dec width k (r + 1) s'

/-- The callback `getImage` (lines 78-127).  The outer loop runs `r` from
`mid_row - 2` to `mid_row + 2`, five rows; the inner loop runs `c` from `0` to
`width - 1`.  The result is `none` when a read falls outside the buffer, which in the
`16UC1` branch is the case for the first read (see `readWord`). -/
def getImage (msg : ImageMsg α) (s : Robot α) : Option (Robot α) :=
  if msg.encoding = "32FC1" then
    scanRows (decode32 msg) msg.width 5 (msg.height.tdiv 2 - 2)
      { s with right_min := 10, left_min := 10 }
  else if msg.encoding = "16UC1" then
    scanRows (decode16 msg) msg.width 5 (msg.height.tdiv 2 - 2)
      { s with right_min := 10, left_min := 10 }
  else some { s with right_min := 10, left_min := 10 }

/-- The sample at row `r`, column `c` decodes to the finite positive distance `x` and
lies in the left half (`left = true`, `c < width/2`) or in the right half
(`left = false`). -/
def IsSampleAt (dec : Int → Option (FloatVal α)) (width r c : Int) (left : Bool) (x : α) :
    Prop :=
  decide (c < width.tdiv 2) = left ∧ dec (c + r * width) = some (FloatVal.fin x) ∧ 0 < x

/-- The number `x` is the decoded distance of a finite positive sample of the given
half in the five-row band around the middle row. -/
def IsBandDistance (dec : Int → Option (FloatVal α)) (width height : Int) (left : Bool)
    (x : α) : Prop :=
  ∃ r c : Int, height.tdiv 2 - 2 ≤ r ∧ r ≤ height.tdiv 2 + 2 ∧ 0 ≤ c ∧ c < width ∧
    IsSampleAt dec width r c left x

/-- Every read of the band falls inside the buffer. -/
def BandInBuffer (dec : Int → Option (FloatVal α)) (width height : Int) : Prop :=
  ∀ r c : Int, height.tdiv 2 - 2 ≤ r → r ≤ height.tdiv 2 + 2 → 0 ≤ c → c < width →
    (dec (c + r * width)).isSome = true

/-- The reading of the given half: `left_min` or `right_min`. -/
def sideMin (left : Bool) (s : Robot α) : α :=
  if left then s.left_min else s.right_min

/-- The value `m` is `m0` lowered to the values that satisfy `P`: it is at most `m0`,
at most every value satisfying `P`, and it is `m0` or satisfies `P` itself. -/
def IsRunningMin (P : α → Prop) (m0 m : α) : Prop :=
  m ≤ m0 ∧ (∀ x, P x → m ≤ x) ∧ (m = m0 ∨ P m)

/-- A `32FC1` image of width `10` and height `5` whose samples are all NaN except
the one at row `2`, column `0`, which holds `raw`. -/
def exImageOne (raw : ℚ) : ImageMsg ℚ :=
  { width := 10, height := 5, encoding := "32FC1",
    floats := List.replicate 20 FloatVal.nan ++ FloatVal.fin raw :: List.replicate 29 FloatVal.nan,
    words := [] }

/-- A `16UC1` message of width `10` and height `5` whose samples are all `0`. -/
def exImageBlank : ImageMsg ℚ :=
  { width := 10, height := 5, encoding := "16UC1", floats := [], words := List.replicate 50 0 }

/-- An image with an encoding that `getImage` does not know. -/
def exImageMono : ImageMsg ℚ :=
  { width := 10, height := 5, encoding := "mono8", floats := [], words := List.replicate 50 7 }

/-! ## Lemmas on the loops of the normalisers -/

section Normalisers

variable [FloorRing α]

theorem posSubLoop_of_le {a : α} (h : a ≤ 6.28) : posSubLoop a = a := by
  rw [posSubLoop, if_neg (not_lt.mpr h)]

theorem posSubLoop_of_gt {a : α} (h : a > 6.28) : posSubLoop a = posSubLoop (a - 6.28) := by
  rw [posSubLoop, if_pos h]

theorem posAddLoop_of_nonneg {a : α} (h : 0 ≤ a) : posAddLoop a = a := by
  rw [posAddLoop, if_neg (not_lt.mpr h)]

theorem posAddLoop_of_neg {a : α} (h : a < 0) : posAddLoop a = posAddLoop (a + 6.28) := by
  rw [posAddLoop, if_pos h]

theorem negSubLoop_of_nonpos {a : α} (h : a ≤ 0) : negSubLoop a = a := by
  rw [negSubLoop, if_neg (not_lt.mpr h)]

theorem negSubLoop_of_pos {a : α} (h : a > 0) : negSubLoop a = negSubLoop (a - 6.28) := by
  rw [negSubLoop, if_pos h]

theorem negAddLoop_of_ge {a : α} (h : -6.28 ≤ a) : negAddLoop a = a := by
  rw [negAddLoop, if_neg (not_lt.mpr h)]

theorem negAddLoop_of_lt {a : α} (h : a < -6.28) : negAddLoop a = negAddLoop (a + 6.28) := by
  rw [negAddLoop, if_pos h]

/-- The first loop of `correctAnglePos` leaves values `≤ 6.28` alone and sends the
others into `(0, 6.28]`. -/
theorem posSubLoop_spec (a : α) :
    posSubLoop a ≤ 6.28 ∧ (a ≤ 6.28 → posSubLoop a = a) ∧ (6.28 < a → 0 < posSubLoop a) := by
  induction a using posSubLoop.induct with
  | case1 a h ih =>
    rw [posSubLoop_of_gt h]
    refine ⟨ih.1, fun h' => absurd h (not_lt.mpr h'), fun _ => ?_⟩
    rcases le_or_lt (a - 6.28) 6.28 with h2 | h2
    · rw [ih.2.1 h2]; linarith
    · exact ih.2.2 h2
  | case2 a h =>
    have h' : a ≤ 6.28 := not_lt.mp h
    rw [posSubLoop_of_le h']
    exact ⟨h', fun _ => rfl, fun h2 => absurd h2 h⟩

/-- The second loop of `correctAnglePos` leaves values `≥ 0` alone and sends the
others into `[0, 6.28)`. -/
theorem posAddLoop_spec (a : α) :
    0 ≤ posAddLoop a ∧ (0 ≤ a → posAddLoop a = a) ∧ (a < 0 → posAddLoop a < 6.28) := by
  induction a using posAddLoop.induct with
  | case1 a h ih =>
    rw [posAddLoop_of_neg h]
    refine ⟨ih.1, fun h' => absurd h (not_lt.mpr h'), fun _ => ?_⟩
    rcases le_or_lt 0 (a + 6.28) with h2 | h2
    · rw [ih.2.1 h2]; linarith
    · exact ih.2.2 h2
  | case2 a h =>
    have h' : 0 ≤ a := not_lt.mp h
    rw [posAddLoop_of_nonneg h']
    exact ⟨h', fun _ => rfl, fun h2 => absurd h2 h⟩

/-- The first loop of `correctAngleNeg` leaves values `≤ 0` alone and sends the
others into `(-6.28, 0]`. -/
theorem negSubLoop_spec (a : α) :
    negSubLoop a ≤ 0 ∧ (a ≤ 0 → negSubLoop a = a) ∧ (0 < a → -6.28 < negSubLoop a) := by
  induction a using negSubLoop.induct with
  | case1 a h ih =>
    rw [negSubLoop_of_pos h]
    refine ⟨ih.1, fun h' => absurd h (not_lt.mpr h'), fun _ => ?_⟩
    rcases le_or_lt (a - 6.28) 0 with h2 | h2
    · rw [ih.2.1 h2]; linarith
    · exact ih.2.2 h2
  | case2 a h =>
    have h' : a ≤ 0 := not_lt.mp h
    rw [negSubLoop_of_nonpos h']
    exact ⟨h', fun _ => rfl, fun h2 => absurd h2 h⟩

/-- The second loop of `correctAngleNeg` leaves values `≥ -6.28` alone and sends
the others into `[-6.28, 0)`. -/
theorem negAddLoop_spec (a : α) :
    -6.28 ≤ negAddLoop a ∧ (-6.28 ≤ a → negAddLoop a = a) ∧ (a < -6.28 → negAddLoop a < 0) := by
  induction a using negAddLoop.induct with
  | case1 a h ih =>
    rw [negAddLoop_of_lt h]
    refine ⟨ih.1, fun h' => absurd h (not_lt.mpr h'), fun _ => ?_⟩
    rcases le_or_lt (-6.28) (a + 6.28) with h2 | h2
    · rw [ih.2.1 h2]; linarith
    · exact ih.2.2 h2
  | case2 a h =>
    have h' : -6.28 ≤ a := not_lt.mp h
    rw [negAddLoop_of_ge h']
    exact ⟨h', fun _ => rfl, fun h2 => absurd h2 h⟩

theorem correctAnglePos_mem (a : α) : 0 ≤ correctAnglePos a ∧ correctAnglePos a ≤ 6.28 := by
  unfold correctAnglePos
  refine ⟨(posAddLoop_spec _).1, ?_⟩
  rcases le_or_lt 0 (posSubLoop a) with h | h
  · rw [(posAddLoop_spec _).2.1 h]; exact (posSubLoop_spec a).1
  · exact le_of_lt ((posAddLoop_spec _).2.2 h)

theorem correctAngleNeg_mem (a : α) : -6.28 ≤ correctAngleNeg a ∧ correctAngleNeg a ≤ 0 := by
  unfold correctAngleNeg
  refine ⟨(negAddLoop_spec _).1, ?_⟩
  rcases le_or_lt (-6.28) (negSubLoop a) with h | h
  · rw [(negAddLoop_spec _).2.1 h]; exact (negSubLoop_spec a).1
  · exact le_of_lt ((negAddLoop_spec _).2.2 h)

theorem correctAnglePos_of_mem {a : α} (h0 : 0 ≤ a) (h1 : a ≤ 6.28) : correctAnglePos a = a := by
  unfold correctAnglePos
  rw [posSubLoop_of_le h1, posAddLoop_of_nonneg h0]

theorem correctAngleNeg_of_mem {a : α} (h0 : -6.28 ≤ a) (h1 : a ≤ 0) : correctAngleNeg a = a := by
  unfold correctAngleNeg
  rw [negSubLoop_of_nonpos h1, negAddLoop_of_ge h0]

theorem posSubLoop_period_mul (k : ℕ) : posSubLoop (((k : α) + 1) * 6.28) = 6.28 := by
  induction k with
  | zero => rw [posSubLoop_of_le] <;> norm_num
  | succ n ih =>
    have hn : (0 : α) ≤ n := Nat.cast_nonneg n
    have hgt : (((n + 1 : ℕ) : α) + 1) * 6.28 > 6.28 := by
      push_cast
      nlinarith
    have e : (((n + 1 : ℕ) : α) + 1) * 6.28 - 6.28 = ((n : α) + 1) * 6.28 := by
      push_cast
      ring
    rw [posSubLoop_of_gt hgt, e, ih]

theorem posSubLoop_eq_period (a : α) (h : posSubLoop a = 6.28) :
    ∃ k : ℕ, 1 ≤ k ∧ a = k * 6.28 := by
  induction a using posSubLoop.induct with
  | case1 a hgt ih =>
    rw [posSubLoop_of_gt hgt] at h
    obtain ⟨k, hk, e⟩ := ih h
    refine ⟨k + 1, by omega, ?_⟩
    push_cast
    linarith
  | case2 a hle =>
    rw [posSubLoop_of_le (not_lt.mp hle)] at h
    exact ⟨1, le_refl 1, by rw [h]; norm_num⟩

theorem negAddLoop_period_mul (k : ℕ) : negAddLoop (-(((k : α) + 1) * 6.28)) = -6.28 := by
  induction k with
  | zero => rw [negAddLoop_of_ge] <;> norm_num
  | succ n ih =>
    have hn : (0 : α) ≤ n := Nat.cast_nonneg n
    have hlt : -((((n + 1 : ℕ) : α) + 1) * 6.28) < -6.28 := by
      push_cast
      nlinarith
    have e : -((((n + 1 : ℕ) : α) + 1) * 6.28) + 6.28 = -(((n : α) + 1) * 6.28) := by
      push_cast
      ring
    rw [negAddLoop_of_lt hlt, e, ih]

theorem negAddLoop_eq_period (a : α) (h : negAddLoop a = -6.28) :
    ∃ k : ℕ, 1 ≤ k ∧ a = -(k * 6.28) := by
  induction a using negAddLoop.induct with
  | case1 a hlt ih =>
    rw [negAddLoop_of_lt hlt] at h
    obtain ⟨k, hk, e⟩ := ih h
    refine ⟨k + 1, by omega, ?_⟩
    push_cast
    linarith
  | case2 a hge =>
    rw [negAddLoop_of_ge (not_lt.mp hge)] at h
    exact ⟨1, le_refl 1, by rw [h]; norm_num⟩

/-- Claim C8, as amended: for every `a`, `correctAnglePos a` lies in the closed
interval `[0, 6.28]`, and it is the upper end `6.28` exactly when `a` is a
positive integer multiple of `6.28`; for every other `a` it is `< 6.28`. -/
theorem correctAnglePos_range (a : α) :
    0 ≤ correctAnglePos a ∧ correctAnglePos a ≤ 6.28 ∧
      (correctAnglePos a = 6.28 ↔ ∃ k : ℕ, 1 ≤ k ∧ a = k * 6.28) := by
  refine ⟨(correctAnglePos_mem a).1, (correctAnglePos_mem a).2, ?_, ?_⟩
  · intro h
    apply posSubLoop_eq_period
    unfold correctAnglePos at h
    rcases le_or_lt 0 (posSubLoop a) with h0 | h0
    · rwa [posAddLoop_of_nonneg h0] at h
    · have := (posAddLoop_spec (posSubLoop a)).2.2 h0
      rw [h] at this
      exact absurd this (lt_irrefl _)
  · rintro ⟨k, hk, rfl⟩
    obtain ⟨n, rfl⟩ : ∃ n, k = n + 1 := ⟨k - 1, by omega⟩
    unfold correctAnglePos
    push_cast
    rw [posSubLoop_period_mul, posAddLoop_of_nonneg]
    norm_num

/-- Claim C8, counterexample: at `a = 6.28` neither loop of `correctAnglePos`
runs, the result is `6.28`, and `6.28 < 6.28` fails. -/
theorem correctAnglePos_period_not_lt :
    correctAnglePos (6.28 : ℚ) = 6.28 ∧
      ¬ (0 ≤ correctAnglePos (6.28 : ℚ) ∧ correctAnglePos (6.28 : ℚ) < 6.28) := by
  have e : correctAnglePos (6.28 : ℚ) = 6.28 := by
    unfold correctAnglePos
    rw [posSubLoop, posAddLoop]
    norm_num
  refine ⟨e, ?_⟩
  rw [e]
  norm_num

/-- Claim C9, as amended: for every `a`, `correctAngleNeg a` lies in the closed
interval `[-6.28, 0]`, and it is the lower end `-6.28` exactly when `a` is a
negative integer multiple of `6.28`; for every other `a` it is `> -6.28`. -/
theorem correctAngleNeg_range (a : α) :
    -6.28 ≤ correctAngleNeg a ∧ correctAngleNeg a ≤ 0 ∧
      (correctAngleNeg a = -6.28 ↔ ∃ k : ℕ, 1 ≤ k ∧ a = -(k * 6.28)) := by
  refine ⟨(correctAngleNeg_mem a).1, (correctAngleNeg_mem a).2, ?_, ?_⟩
  · intro h
    unfold correctAngleNeg at h
    rcases le_or_lt a 0 with h0 | h0
    · rw [negSubLoop_of_nonpos h0] at h
      exact negAddLoop_eq_period a h
    · have h1 := (negSubLoop_spec a).2.2 h0
      rw [negAddLoop_of_ge (le_of_lt h1)] at h
      rw [h] at h1
      exact absurd h1 (lt_irrefl _)
  · rintro ⟨k, hk, rfl⟩
    obtain ⟨n, rfl⟩ : ∃ n, k = n + 1 := ⟨k - 1, by omega⟩
    have hn : (0 : α) ≤ n := Nat.cast_nonneg n
    unfold correctAngleNeg
    push_cast
    rw [negSubLoop_of_nonpos, negAddLoop_period_mul]
    nlinarith

/-- Claim C9, counterexample: at `a = -6.28` neither loop of `correctAngleNeg`
runs, the result is `-6.28`, and `-6.28 < -6.28` fails. -/
theorem correctAngleNeg_period_not_gt :
    correctAngleNeg (-6.28 : ℚ) = -6.28 ∧
      ¬ (-6.28 < correctAngleNeg (-6.28 : ℚ) ∧ correctAngleNeg (-6.28 : ℚ) ≤ 0) := by
  have e : correctAngleNeg (-6.28 : ℚ) = -6.28 := by
    unfold correctAngleNeg
    rw [negSubLoop, negAddLoop]
    norm_num
  refine ⟨e, ?_⟩
  rw [e]
  norm_num

/-- Claim C10: both normalisers are idempotent, for every input `a`. -/
theorem correctAngle_idempotent (a : α) :
    correctAnglePos (correctAnglePos a) = correctAnglePos a ∧
      correctAngleNeg (correctAngleNeg a) = correctAngleNeg a :=
  ⟨correctAnglePos_of_mem (correctAnglePos_mem a).1 (correctAnglePos_mem a).2,
   correctAngleNeg_of_mem (correctAngleNeg_mem a).1 (correctAngleNeg_mem a).2⟩

end Normalisers

/-! ## Lemmas on the blocks of the loop body -/

section Blocks

/-- For the exact square root, `sqrt(s) > 0.3048` is `s > 0.3048 * 0.3048`: the
form in which `movedPast` states the test of line 157. -/
theorem sqrt_gt_iff (s : ℝ) : Real.sqrt s > 0.3048 ↔ s > 0.3048 * 0.3048 := by
  have h0 : (0 : ℝ) ≤ 0.3048 := by norm_num
  rw [gt_iff_lt, gt_iff_lt, Real.lt_sqrt h0, sq]

/-- Over the reals the C++ `sqrt` of the radicand is the displacement in the sense of
`IsDisplacement`. -/
theorem isDisplacement_sqrt (r : Robot ℝ) (v : MoveVars ℝ) :
    IsDisplacement r v (Real.sqrt ((r.pos_x - v.start_x) * (r.pos_x - v.start_x)
      + (r.pos_y - v.start_y) * (r.pos_y - v.start_y))) := by
  refine ⟨Real.sqrt_nonneg _, Real.mul_self_sqrt ?_⟩
  nlinarith [mul_self_nonneg (r.pos_x - v.start_x), mul_self_nonneg (r.pos_y - v.start_y)]

theorem movedPast_iff {r : Robot α} {v : MoveVars α} {d : α} (h : IsDisplacement r v d) :
    movedPast r v ↔ d > 0.3048 := by
  obtain ⟨h0, e⟩ := h
  unfold movedPast
  rw [← e]
  constructor
  · intro h1
    by_contra h2
    have h3 : d ≤ 0.3048 := not_lt.mp h2
    have : d * d ≤ 0.3048 * 0.3048 := mul_le_mul h3 h3 h0 (by norm_num)
    exact absurd h1 (not_lt.mpr this)
  · intro h1
    have hp : (0 : α) < 0.3048 := by norm_num
    exact mul_lt_mul'' h1 h1 (le_of_lt hp) (le_of_lt hp)

/-- The halt block changes nothing but `linear_wire`. -/
theorem halt_fields (r : Robot α) (v : MoveVars α) :
    (halt r v).angular_wire = v.angular_wire ∧ (halt r v).start_x = v.start_x ∧
    (halt r v).start_y = v.start_y ∧ (halt r v).start_angle = v.start_angle ∧
    (halt r v).uninterrupted_turn = v.uninterrupted_turn ∧
    (halt r v).turning_angle = v.turning_angle := by
  unfold halt
  split_ifs <;> simp

theorem halt_linear (r : Robot α) (v : MoveVars α) :
    (halt r v).linear_wire = if r.bumper_state ≠ 0 then 0 else v.linear_wire := by
  unfold halt
  split_ifs <;> rfl

theorem acceptKeyboard_of_inactive {r : Robot α} (h : ¬ overrideActive r) (v : MoveVars α) :
    acceptKeyboard r v = v := by
  unfold acceptKeyboard
  rw [if_neg h]

theorem acceptKeyboard_of_active {r : Robot α} (h : overrideActive r) (v : MoveVars α) :
    acceptKeyboard r v =
      { v with linear_wire := r.keyboard_linear, angular_wire := r.keyboard_angular,
               turning_angle := 0, uninterrupted_turn := false } := by
  unfold acceptKeyboard
  rw [if_pos h]

theorem acceptKeyboard_active_fields {r : Robot α} (h : overrideActive r) (v : MoveVars α) :
    (acceptKeyboard r v).linear_wire = r.keyboard_linear ∧
    (acceptKeyboard r v).angular_wire = r.keyboard_angular ∧
    (acceptKeyboard r v).turning_angle = 0 ∧
    (acceptKeyboard r v).uninterrupted_turn = false := by
  unfold acceptKeyboard
  rw [if_pos h]
  exact ⟨rfl, rfl, rfl, rfl⟩

/-- The keyboard block never touches the waypoint or the reference heading. -/
theorem acceptKeyboard_start (r : Robot α) (v : MoveVars α) :
    (acceptKeyboard r v).start_x = v.start_x ∧ (acceptKeyboard r v).start_y = v.start_y ∧
    (acceptKeyboard r v).start_angle = v.start_angle := by
  unfold acceptKeyboard
  split_ifs <;> simp

/-- The turn block never touches `linear_wire`, the waypoint or the reference heading. -/
theorem executeTurn_frame [FloorRing α] (r : Robot α) (v : MoveVars α) :
    (executeTurn r v).linear_wire = v.linear_wire ∧ (executeTurn r v).start_x = v.start_x ∧
    (executeTurn r v).start_y = v.start_y ∧ (executeTurn r v).start_angle = v.start_angle := by
  unfold executeTurn
  split_ifs <;> simp

/-- The turn block keeps the target delta or clears it, and never sets the flag. -/
theorem executeTurn_turn [FloorRing α] (r : Robot α) (v : MoveVars α) :
    ((executeTurn r v).turning_angle = v.turning_angle ∨ (executeTurn r v).turning_angle = 0) ∧
    ((executeTurn r v).uninterrupted_turn = true → v.uninterrupted_turn = true) := by
  unfold executeTurn
  split_ifs <;> simp

theorem executeTurn_of_pos [FloorRing α] {r : Robot α} {v : MoveVars α} (h0 : v.turning_angle > 0)
    (h : v.turning_angle > correctAnglePos (r.angle - v.start_angle)) :
    executeTurn r v = { v with angular_wire := angular_speed } := by
  unfold executeTurn
  rw [if_pos h0, if_pos h]

theorem executeTurn_of_neg [FloorRing α] {r : Robot α} {v : MoveVars α} (h0 : v.turning_angle < 0)
    (h : v.turning_angle < correctAngleNeg (r.angle - v.start_angle)) :
    executeTurn r v = { v with angular_wire := -angular_speed } := by
  unfold executeTurn
  rw [if_neg (not_lt.mpr (le_of_lt h0)), if_pos h0, if_pos h]

theorem executeTurn_of_zero [FloorRing α] {r : Robot α} {v : MoveVars α} (h0 : v.turning_angle = 0) :
    executeTurn r v = v := by
  unfold executeTurn
  rw [h0, if_neg (lt_irrefl _), if_neg (lt_irrefl _)]

/-- After "Don't move if turning", a raised flag means `linear_wire` is `0`. -/
theorem beforeTurn_linear_of_turning (r : Robot α) (draw : α) (v : MoveVars α)
    (h : (beforeTurn r draw v).uninterrupted_turn = true) :
    (beforeTurn r draw v).linear_wire = 0 := by
  unfold beforeTurn stopIfTurning at h ⊢
  split_ifs at h ⊢ with h1
  · rfl
  · exact absurd h h1

theorem randomTurn_frame (r : Robot α) (draw : α) (v : MoveVars α) :
    (randomTurn r draw v).linear_wire = v.linear_wire ∧
    (randomTurn r draw v).angular_wire = v.angular_wire ∧
    (randomTurn r draw v).uninterrupted_turn = v.uninterrupted_turn := by
  unfold randomTurn
  split_ifs <;> simp

theorem randomTurn_of_not {r : Robot α} {v : MoveVars α}
    (h : ¬ (movedPast r v ∧ v.uninterrupted_turn = false ∧ r.left_min > 0.6 ∧ r.right_min > 0.6))
    (draw : α) : randomTurn r draw v = v := by
  unfold randomTurn
  rw [if_neg h]

theorem avoidAsymmetric_frame (r : Robot α) (v : MoveVars α) :
    (avoidAsymmetric r v).start_x = v.start_x ∧ (avoidAsymmetric r v).start_y = v.start_y ∧
    (avoidAsymmetric r v).start_angle = v.start_angle ∧
    (avoidAsymmetric r v).uninterrupted_turn = v.uninterrupted_turn ∧
    (avoidAsymmetric r v).turning_angle = v.turning_angle := by
  unfold avoidAsymmetric
  split_ifs <;> simp

theorem avoidAsymmetric_linear (r : Robot α) (v : MoveVars α) :
    (avoidAsymmetric r v).linear_wire =
      if r.left_min < 0.305 ∨ r.right_min < 0.305 then linear_speed / 2 else v.linear_wire := by
  unfold avoidAsymmetric
  by_cases hl : r.left_min < 0.305
  · rw [if_pos hl, if_pos (Or.inl hl)]
  · by_cases hr : r.right_min < 0.305
    · rw [if_neg hl, if_pos hr, if_pos (Or.inr hr)]
    · rw [if_neg hl, if_neg hr, if_neg (not_or.mpr ⟨hl, hr⟩)]

theorem avoidAsymmetric_of_clear {r : Robot α} (hl : ¬ r.left_min < 0.305)
    (hr : ¬ r.right_min < 0.305) (v : MoveVars α) : avoidAsymmetric r v = v := by
  unfold avoidAsymmetric
  rw [if_neg hl, if_neg hr]

theorem avoidSymmetric_frame (r : Robot α) (v : MoveVars α) :
    (avoidSymmetric r v).linear_wire = v.linear_wire ∧
    (avoidSymmetric r v).angular_wire = v.angular_wire ∧
    (avoidSymmetric r v).start_x = v.start_x ∧ (avoidSymmetric r v).start_y = v.start_y := by
  unfold avoidSymmetric
  split_ifs <;> simp

theorem avoidSymmetric_of_not {r : Robot α} {v : MoveVars α}
    (h : ¬ (r.left_min < 0.4 ∧ r.right_min < 0.4 ∧ v.uninterrupted_turn = false)) :
    avoidSymmetric r v = v := by
  unfold avoidSymmetric
  rw [if_neg h]

theorem avoidSymmetric_of_close {r : Robot α} {v : MoveVars α}
    (h : r.left_min < 0.4 ∧ r.right_min < 0.4 ∧ v.uninterrupted_turn = false) :
    avoidSymmetric r v =
      { v with turning_angle := -3.14, start_angle := r.angle, uninterrupted_turn := true } := by
  unfold avoidSymmetric
  rw [if_pos h]

theorem stopIfTurning_frame (v : MoveVars α) :
    (stopIfTurning v).angular_wire = v.angular_wire ∧ (stopIfTurning v).start_x = v.start_x ∧
    (stopIfTurning v).start_y = v.start_y ∧ (stopIfTurning v).start_angle = v.start_angle ∧
    (stopIfTurning v).uninterrupted_turn = v.uninterrupted_turn ∧
    (stopIfTurning v).turning_angle = v.turning_angle := by
  unfold stopIfTurning
  split_ifs <;> simp

theorem stopIfTurning_linear (v : MoveVars α) :
    (stopIfTurning v).linear_wire = if v.uninterrupted_turn = true then 0 else v.linear_wire := by
  unfold stopIfTurning
  split_ifs <;> rfl

/-- With the flag down at the turn block, `linear_wire` is what the drive and
asymmetric-avoidance blocks left. -/
theorem beforeTurn_linear_of_not_turning (r : Robot α) (draw : α) (v : MoveVars α)
    (h : (beforeTurn r draw v).uninterrupted_turn = false) :
    (beforeTurn r draw v).linear_wire =
      if r.left_min < 0.305 ∨ r.right_min < 0.305 then linear_speed / 2 else linear_speed := by
  unfold beforeTurn at h ⊢
  rw [(stopIfTurning_frame _).2.2.2.2.1] at h
  rw [stopIfTurning_linear, h, if_neg (by simp), (avoidSymmetric_frame _ _).1,
    avoidAsymmetric_linear, (randomTurn_frame _ _ _).1]
  rfl

theorem correctAnglePos_zero : correctAnglePos (0 : ℚ) = 0 :=
  correctAnglePos_of_mem (le_refl _) (by norm_num)

theorem correctAngleNeg_zero : correctAngleNeg (0 : ℚ) = 0 :=
  correctAngleNeg_of_mem (by norm_num) (le_refl _)

/-- Boxed in with the flag down: at the turn block the half-turn is armed, the flag
is up, the reference heading is the current one and `linear_wire` is `0`. -/
theorem beforeTurn_of_close (r : Robot α) (draw : α) (v : MoveVars α)
    (hl : r.left_min < 0.4) (hr : r.right_min < 0.4) (hu : v.uninterrupted_turn = false) :
    (beforeTurn r draw v).uninterrupted_turn = true ∧
    (beforeTurn r draw v).turning_angle = -3.14 ∧
    (beforeTurn r draw v).start_angle = r.angle ∧
    (beforeTurn r draw v).linear_wire = 0 := by
  have hu2 : (avoidAsymmetric r (randomTurn r draw (driveForward v))).uninterrupted_turn
      = false := by
    rw [(avoidAsymmetric_frame _ _).2.2.2.1, (randomTurn_frame _ _ _).2.2]
    exact hu
  have hs := avoidSymmetric_of_close (And.intro hl (And.intro hr hu2))
  have hflag : (beforeTurn r draw v).uninterrupted_turn = true := by
    unfold beforeTurn
    rw [(stopIfTurning_frame _).2.2.2.2.1, hs]
  refine ⟨hflag, ?_, ?_, beforeTurn_linear_of_turning r draw v hflag⟩
  · unfold beforeTurn
    rw [(stopIfTurning_frame _).2.2.2.2.2, hs]
  · unfold beforeTurn
    rw [(stopIfTurning_frame _).2.2.2.1, hs]

/-- Below the displacement threshold with both minima above `0.6`, only the drive
and "Don't move if turning" blocks act before the turn block. -/
theorem beforeTurn_of_clear_near (r : Robot α) (draw : α) (v : MoveVars α)
    (hm : ¬ movedPast r v) (hl : r.left_min > 0.6) (hr : r.right_min > 0.6) :
    beforeTurn r draw v = stopIfTurning (driveForward v) := by
  have h1 : randomTurn r draw (driveForward v) = driveForward v :=
    randomTurn_of_not (r := r) (v := driveForward v) (fun h => hm h.1) draw
  have h2 : avoidAsymmetric r (driveForward v) = driveForward v :=
    avoidAsymmetric_of_clear (not_lt.mpr (le_of_lt (lt_trans (by norm_num) hl)))
      (not_lt.mpr (le_of_lt (lt_trans (by norm_num) hr))) _
  have h3 : avoidSymmetric r (driveForward v) = driveForward v :=
    avoidSymmetric_of_not (fun h => absurd h.1 (not_lt.mpr (le_of_lt (lt_trans (by norm_num) hl))))
  unfold beforeTurn
  rw [h1, h2, h3]

/-- Past the displacement threshold with both minima above `0.6` and the flag down,
the random-turn block arms `draw` and no later block before the turn block acts. -/
theorem beforeTurn_of_clear_moved (r : Robot α) (draw : α) (v : MoveVars α)
    (hm : movedPast r v) (hu : v.uninterrupted_turn = false)
    (hl : r.left_min > 0.6) (hr : r.right_min > 0.6) :
    (beforeTurn r draw v).turning_angle = draw ∧
    (beforeTurn r draw v).start_angle = r.angle ∧
    (beforeTurn r draw v).start_x = r.pos_x ∧ (beforeTurn r draw v).start_y = r.pos_y ∧
    (beforeTurn r draw v).uninterrupted_turn = false := by
  have h1 : randomTurn r draw (driveForward v) =
      { driveForward v with turning_angle := draw, start_angle := r.angle,
                            start_x := r.pos_x, start_y := r.pos_y } := by
    unfold randomTurn
    have hc : movedPast r (driveForward v) ∧ (driveForward v).uninterrupted_turn = false ∧
        r.left_min > 0.6 ∧ r.right_min > 0.6 := ⟨hm, hu, hl, hr⟩
    rw [if_pos hc]
  have h2 : avoidAsymmetric r (randomTurn r draw (driveForward v))
      = randomTurn r draw (driveForward v) :=
    avoidAsymmetric_of_clear (not_lt.mpr (le_of_lt (lt_trans (by norm_num) hl)))
      (not_lt.mpr (le_of_lt (lt_trans (by norm_num) hr))) _
  have h3 : avoidSymmetric r (randomTurn r draw (driveForward v))
      = randomTurn r draw (driveForward v) :=
    avoidSymmetric_of_not (fun h => absurd h.1 (not_lt.mpr (le_of_lt (lt_trans (by norm_num) hl))))
  have hs := stopIfTurning_frame (randomTurn r draw (driveForward v))
  unfold beforeTurn
  rw [h2, h3, hs.2.2.2.2.2, hs.2.2.2.1, hs.2.1, hs.2.2.1, hs.2.2.2.2.1, h1]
  exact ⟨rfl, rfl, rfl, rfl, hu⟩

/-- When the reference heading is the current heading, the turn block leaves the
target delta and the flag as they are. -/
theorem executeTurn_at_reference [FloorRing α] (r : Robot α) (v : MoveVars α)
    (h : v.start_angle = r.angle) :
    (executeTurn r v).turning_angle = v.turning_angle ∧
    (executeTurn r v).uninterrupted_turn = v.uninterrupted_turn := by
  have hp : correctAnglePos (r.angle - v.start_angle) = 0 := by
    rw [h, sub_self]
    exact correctAnglePos_of_mem (le_refl _) (by norm_num)
  have hn : correctAngleNeg (r.angle - v.start_angle) = 0 := by
    rw [h, sub_self]
    exact correctAngleNeg_of_mem (by norm_num) (le_refl _)
  rcases lt_trichotomy v.turning_angle 0 with h0 | h0 | h0
  · rw [executeTurn_of_neg h0 (by rw [hn]; exact h0)]
    exact ⟨rfl, rfl⟩
  · rw [executeTurn_of_zero h0]
    exact ⟨rfl, rfl⟩
  · rw [executeTurn_of_pos h0 (by rw [hp]; exact h0)]
    exact ⟨rfl, rfl⟩

/-- Nothing before the halt block reads `bumper_state`. -/
theorem beforeHalt_bumper [FloorRing α] (r : Robot α) (b : Int) (draw : α) (v : MoveVars α) :
    acceptKeyboard { r with bumper_state := b }
      (executeTurn { r with bumper_state := b } (beforeTurn { r with bumper_state := b } draw v))
      = acceptKeyboard r (executeTurn r (beforeTurn r draw v)) := by
  simp only [acceptKeyboard, executeTurn, beforeTurn, stopIfTurning, avoidSymmetric,
    avoidAsymmetric, randomTurn, driveForward]

end Blocks

/-! ## The claims on one iteration of `move` -/

section Claims

variable [FloorRing α]

/-- Claim C1: when the keyboard override is active (`|keyboard_linear| > 0.01` or
`|keyboard_angular| > 0.01`), one iteration publishes `angular = keyboard_angular`,
publishes `linear = keyboard_linear` with the bumper released and `linear = 0` with
the bumper pressed, and leaves `turning_angle = 0`, `uninterrupted_turn = false`,
whatever the ranges, pose, random draw and previous locals are. -/
theorem override_tick (r : Robot α) (draw : α) (v : MoveVars α)
    (h : |r.keyboard_linear| > 0.01 ∨ |r.keyboard_angular| > 0.01) :
    (tick r draw v).angular_wire = r.keyboard_angular ∧
    (r.bumper_state = 0 → (tick r draw v).linear_wire = r.keyboard_linear) ∧
    (r.bumper_state ≠ 0 → (tick r draw v).linear_wire = 0) ∧
    (tick r draw v).turning_angle = 0 ∧ (tick r draw v).uninterrupted_turn = false := by
  have hf := halt_fields r (acceptKeyboard r (executeTurn r (beforeTurn r draw v)))
  have hl := halt_linear r (acceptKeyboard r (executeTurn r (beforeTurn r draw v)))
  have hk := acceptKeyboard_active_fields h (executeTurn r (beforeTurn r draw v))
  unfold tick
  refine ⟨hf.1.trans hk.2.1, fun hb => ?_, fun hb => ?_, hf.2.2.2.2.2.trans hk.2.2.1,
    hf.2.2.2.2.1.trans hk.2.2.2⟩
  · rw [hl, if_neg (not_not.mpr hb), hk.1]
  · rw [hl, if_pos hb]

/-- Claim C1, instance: keyboard command `(0.5, 0.2)` with the bumper pressed. -/
theorem override_tick_witness :
    (|exOverrideBumped.keyboard_linear| > 0.01 ∨ |exOverrideBumped.keyboard_angular| > 0.01) ∧
    (tick exOverrideBumped 0.1 exVarsTurning).angular_wire = 0.2 ∧
    (tick exOverrideBumped 0.1 exVarsTurning).linear_wire = 0 ∧
    (tick exOverrideBumped 0.1 exVarsTurning).turning_angle = 0 ∧
    (tick exOverrideBumped 0.1 exVarsTurning).uninterrupted_turn = false := by
  have hov : |exOverrideBumped.keyboard_linear| > 0.01 ∨
      |exOverrideBumped.keyboard_angular| > 0.01 := by
    norm_num [exOverrideBumped, abs_of_pos]
  have h := override_tick exOverrideBumped 0.1 exVarsTurning hov
  exact ⟨hov, h.1, h.2.2.1 (by decide), h.2.2.2.1, h.2.2.2.2⟩

/-- Claim C2: a pressed bumper changes the outcome of an iteration only by forcing
`linear` to `0`: with `bumper_state` non-zero the iteration publishes `linear = 0`,
and it publishes the same `angular` and leaves the same `turning_angle`,
`uninterrupted_turn`, `start_angle`, `start_x`, `start_y` as the iteration on the
same state with `bumper_state = 0`. -/
theorem bumper_only_zeroes_linear (r : Robot α) (draw : α) (v : MoveVars α)
    (hb : r.bumper_state ≠ 0) :
    (tick r draw v).linear_wire = 0 ∧
    (tick r draw v).angular_wire = (tick { r with bumper_state := 0 } draw v).angular_wire ∧
    (tick r draw v).turning_angle = (tick { r with bumper_state := 0 } draw v).turning_angle ∧
    (tick r draw v).uninterrupted_turn =
      (tick { r with bumper_state := 0 } draw v).uninterrupted_turn ∧
    (tick r draw v).start_angle = (tick { r with bumper_state := 0 } draw v).start_angle ∧
    (tick r draw v).start_x = (tick { r with bumper_state := 0 } draw v).start_x ∧
    (tick r draw v).start_y = (tick { r with bumper_state := 0 } draw v).start_y := by
  have e := beforeHalt_bumper r 0 draw v
  have hf := halt_fields r (acceptKeyboard r (executeTurn r (beforeTurn r draw v)))
  have hf0 := halt_fields { r with bumper_state := 0 }
    (acceptKeyboard r (executeTurn r (beforeTurn r draw v)))
  have hl := halt_linear r (acceptKeyboard r (executeTurn r (beforeTurn r draw v)))
  rw [if_pos hb] at hl
  unfold tick
  rw [e]
  exact ⟨hl, hf.1.trans hf0.1.symm, hf.2.2.2.2.2.trans hf0.2.2.2.2.2.symm,
    hf.2.2.2.2.1.trans hf0.2.2.2.2.1.symm, hf.2.2.2.1.trans hf0.2.2.2.1.symm,
    hf.2.1.trans hf0.2.1.symm, hf.2.2.1.trans hf0.2.2.1.symm⟩

/-- Claim C2, instance: the bumper is pressed while the robot cruises with a clear
view; releasing it gives back `linear = 0.3` and changes nothing else. -/
theorem bumper_only_zeroes_linear_witness :
    ({ exClearNear with bumper_state := 1 } : Robot ℚ).bumper_state ≠ 0 ∧
    (tick { exClearNear with bumper_state := 1 } 0.1 exVars).linear_wire = 0 ∧
    (tick { exClearNear with bumper_state := 1 } 0.1 exVars).angular_wire
      = (tick exClearNear 0.1 exVars).angular_wire ∧
    (tick { exClearNear with bumper_state := 1 } 0.1 exVars).turning_angle
      = (tick exClearNear 0.1 exVars).turning_angle ∧
    (tick exClearNear 0.1 exVars).linear_wire = 0.3 := by
  have h := bumper_only_zeroes_linear { exClearNear with bumper_state := 1 } 0.1 exVars
    (by decide)
  refine ⟨by decide, h.1, h.2.1, h.2.2.1, ?_⟩
  norm_num [tick, halt, acceptKeyboard, executeTurn, beforeTurn, stopIfTurning, avoidSymmetric,
    avoidAsymmetric, randomTurn, driveForward, exClearNear, exVars, linear_speed]

/-- Claim C3: with `left_min < 0.4`, `right_min < 0.4`, the flag `uninterrupted_turn`
down and the override inactive, one iteration raises the flag, sets the target delta
to the half-turn `-3.14` (magnitude `3.14`), records the current heading as
`start_angle`, and publishes `linear = 0` with `angular = -angular_speed`, whose
magnitude is `angular_speed` and which is not `0`, in that same iteration. -/
theorem symmetric_commit (r : Robot α) (draw : α) (v : MoveVars α)
    (hl : r.left_min < 0.4) (hr : r.right_min < 0.4) (hu : v.uninterrupted_turn = false)
    (hov : ¬ (|r.keyboard_linear| > 0.01 ∨ |r.keyboard_angular| > 0.01)) :
    (tick r draw v).uninterrupted_turn = true ∧
    (tick r draw v).turning_angle = -3.14 ∧ |(tick r draw v).turning_angle| = 3.14 ∧
    (tick r draw v).start_angle = r.angle ∧
    (tick r draw v).linear_wire = 0 ∧
    (tick r draw v).angular_wire = -angular_speed ∧
    |(tick r draw v).angular_wire| = angular_speed ∧ (tick r draw v).angular_wire ≠ 0 := by
  have hb := beforeTurn_of_close r draw v hl hr hu
  have hneg : (beforeTurn r draw v).turning_angle < 0 := by rw [hb.2.1]; norm_num
  have hz : correctAngleNeg (r.angle - (beforeTurn r draw v).start_angle) = 0 := by
    rw [hb.2.2.1, sub_self]
    exact correctAngleNeg_of_mem (by norm_num) (le_refl _)
  have he := executeTurn_of_neg hneg (by rw [hz]; exact hneg)
  have hf := halt_fields r (executeTurn r (beforeTurn r draw v))
  have hlin := halt_linear r (executeTurn r (beforeTurn r draw v))
  have hang : (tick r draw v).angular_wire = -angular_speed := by
    unfold tick
    rw [acceptKeyboard_of_inactive hov, hf.1, he]
  have hta : (tick r draw v).turning_angle = -3.14 := by
    unfold tick
    rw [acceptKeyboard_of_inactive hov, hf.2.2.2.2.2, he]
    exact hb.2.1
  refine ⟨?_, hta, ?_, ?_, ?_, hang, ?_, ?_⟩
  · unfold tick
    rw [acceptKeyboard_of_inactive hov, hf.2.2.2.2.1, he]
    exact hb.1
  · rw [hta, abs_neg, abs_of_pos (by norm_num)]
  · unfold tick
    rw [acceptKeyboard_of_inactive hov, hf.2.2.2.1, he]
    exact hb.2.2.1
  · unfold tick
    rw [acceptKeyboard_of_inactive hov, hlin, (executeTurn_frame r _).1, hb.2.2.2, ite_self]
  · rw [hang, abs_neg]
    unfold angular_speed
    exact abs_one
  · rw [hang]
    unfold angular_speed
    norm_num

/-- Claim C3, instance of the specification: `left_min = right_min = 0.2`, no turn
active, no keyboard command. -/
theorem symmetric_commit_witness :
    exBoxedIn.left_min = 0.2 ∧ exBoxedIn.right_min = 0.2 ∧
    (tick exBoxedIn 0.1 exVars).uninterrupted_turn = true ∧
    (tick exBoxedIn 0.1 exVars).turning_angle = -3.14 ∧
    (tick exBoxedIn 0.1 exVars).linear_wire = 0 ∧
    (tick exBoxedIn 0.1 exVars).angular_wire = -1 := by
  have h := symmetric_commit exBoxedIn 0.1 exVars (by norm_num [exBoxedIn])
    (by norm_num [exBoxedIn]) rfl (by norm_num [exBoxedIn])
  exact ⟨rfl, rfl, h.1, h.2.1, h.2.2.2.2.1, h.2.2.2.2.2.1⟩

/-- Claim C4: if `uninterrupted_turn` is true after an iteration, the `linear`
published by that iteration is `0`, for every state, input snapshot and draw. -/
theorem linear_zero_while_turning (r : Robot α) (draw : α) (v : MoveVars α)
    (h : (tick r draw v).uninterrupted_turn = true) : (tick r draw v).linear_wire = 0 := by
  have hf := halt_fields r (acceptKeyboard r (executeTurn r (beforeTurn r draw v)))
  have hlin := halt_linear r (acceptKeyboard r (executeTurn r (beforeTurn r draw v)))
  unfold tick at h ⊢
  rw [hf.2.2.2.2.1] at h
  by_cases hov : overrideActive r
  · rw [(acceptKeyboard_active_fields hov _).2.2.2] at h
    exact absurd h (by decide)
  · rw [acceptKeyboard_of_inactive hov] at h hlin ⊢
    have hb := (executeTurn_turn r _).2 h
    rw [hlin, (executeTurn_frame r _).1, beforeTurn_linear_of_turning r draw v hb, ite_self]

/-- Claim C4, instance: boxed in at `0.2` / `0.2`, the flag is up after the
iteration and `linear` is `0`. -/
theorem linear_zero_while_turning_witness :
    (tick exBoxedIn 0.1 exVars).uninterrupted_turn = true ∧
    (tick exBoxedIn 0.1 exVars).linear_wire = 0 := by
  have hu : (tick exBoxedIn 0.1 exVars).uninterrupted_turn = true := by
    norm_num [tick, halt, acceptKeyboard, executeTurn, beforeTurn, stopIfTurning,
      avoidSymmetric, avoidAsymmetric, randomTurn, driveForward, exBoxedIn, exVars,
      correctAngleNeg_zero]
  exact ⟨hu, linear_zero_while_turning exBoxedIn 0.1 exVars hu⟩

/-- Claim C5, as amended: with the override inactive, if at the turn block the
target delta is positive and greater than `correctAnglePos (angle - start_angle)`,
the iteration publishes `angular = +angular_speed`; if it is negative and less than
`correctAngleNeg (angle - start_angle)`, the iteration publishes
`angular = -angular_speed`.  In both cases `linear` is `0` when `uninterrupted_turn`
is set at that point or the bumper is pressed, and otherwise it is what the drive and
avoidance blocks left: `linear_speed / 2` if `left_min < 0.305` or
`right_min < 0.305`, else `linear_speed`. -/
theorem turn_execution_output (r : Robot α) (draw : α) (v : MoveVars α)
    (hov : ¬ (|r.keyboard_linear| > 0.01 ∨ |r.keyboard_angular| > 0.01)) :
    ((beforeTurn r draw v).turning_angle > 0 ∧
      (beforeTurn r draw v).turning_angle
        > correctAnglePos (r.angle - (beforeTurn r draw v).start_angle) →
      (tick r draw v).angular_wire = angular_speed ∧
      (tick r draw v).linear_wire =
        if (beforeTurn r draw v).uninterrupted_turn = true ∨ r.bumper_state ≠ 0 then 0
        else if r.left_min < 0.305 ∨ r.right_min < 0.305 then linear_speed / 2
        else linear_speed) ∧
    ((beforeTurn r draw v).turning_angle < 0 ∧
      (beforeTurn r draw v).turning_angle
        < correctAngleNeg (r.angle - (beforeTurn r draw v).start_angle) →
      (tick r draw v).angular_wire = -angular_speed ∧
      (tick r draw v).linear_wire =
        if (beforeTurn r draw v).uninterrupted_turn = true ∨ r.bumper_state ≠ 0 then 0
        else if r.left_min < 0.305 ∨ r.right_min < 0.305 then linear_speed / 2
        else linear_speed) := by
  have hf := halt_fields r (executeTurn r (beforeTurn r draw v))
  have hlin : (tick r draw v).linear_wire =
      if (beforeTurn r draw v).uninterrupted_turn = true ∨ r.bumper_state ≠ 0 then 0
      else if r.left_min < 0.305 ∨ r.right_min < 0.305 then linear_speed / 2
      else linear_speed := by
    unfold tick
    rw [acceptKeyboard_of_inactive hov, halt_linear, (executeTurn_frame r _).1]
    by_cases hb : r.bumper_state ≠ 0
    · rw [if_pos hb, if_pos (Or.inr hb)]
    · rw [if_neg hb]
      by_cases hu : (beforeTurn r draw v).uninterrupted_turn = true
      · rw [if_pos (Or.inl hu), beforeTurn_linear_of_turning r draw v hu]
      · rw [if_neg (not_or.mpr ⟨hu, hb⟩),
          beforeTurn_linear_of_not_turning r draw v (Bool.eq_false_iff.mpr hu)]
  refine ⟨fun h => ⟨?_, hlin⟩, fun h => ⟨?_, hlin⟩⟩
  · unfold tick
    rw [acceptKeyboard_of_inactive hov, hf.1, executeTurn_of_pos h.1 h.2]
  · unfold tick
    rw [acceptKeyboard_of_inactive hov, hf.1, executeTurn_of_neg h.1 h.2]

/-- Claim C5, instances: a random turn of `+0.2` and one of `-0.2`, armed with a
clear view and executed with the heading at the reference: `angular = ±1` and
`linear = 0.3`. -/
theorem turn_execution_output_witness :
    ¬ (|exClearMoved.keyboard_linear| > 0.01 ∨ |exClearMoved.keyboard_angular| > 0.01) ∧
    ((tick exClearMoved 0.2 exVars).angular_wire = 1 ∧
      (tick exClearMoved 0.2 exVars).linear_wire = 0.3) ∧
    ((tick exClearMoved (-0.2) exVars).angular_wire = -1 ∧
      (tick exClearMoved (-0.2) exVars).linear_wire = 0.3) := by
  have hov : ¬ (|exClearMoved.keyboard_linear| > 0.01 ∨
      |exClearMoved.keyboard_angular| > 0.01) := by
    norm_num [exClearMoved]
  have hp := (turn_execution_output exClearMoved 0.2 exVars hov).1 (by
    norm_num [beforeTurn, stopIfTurning, avoidSymmetric, avoidAsymmetric, randomTurn,
      driveForward, exClearMoved, exVars, correctAnglePos_zero])
  have hn := (turn_execution_output exClearMoved (-0.2) exVars hov).2 (by
    norm_num [beforeTurn, stopIfTurning, avoidSymmetric, avoidAsymmetric, randomTurn,
      driveForward, exClearMoved, exVars, correctAngleNeg_zero])
  refine ⟨hov, ⟨hp.1, ?_⟩, ⟨hn.1, ?_⟩⟩
  · rw [hp.2]
    norm_num [beforeTurn, stopIfTurning, avoidSymmetric, avoidAsymmetric, randomTurn,
      driveForward, exClearMoved, exVars, linear_speed]
  · rw [hn.2]
    norm_num [beforeTurn, stopIfTurning, avoidSymmetric, avoidAsymmetric, randomTurn,
      driveForward, exClearMoved, exVars, linear_speed]

/-- Claim C5, counterexample: ranges `10` / `10`, a delta of `0.2` armed by the
random-turn block, heading equal to the reference, no override.  The target delta is
positive and exceeds `correctAnglePos (angle - start_angle) = 0`, `angular` is
`+angular_speed`, yet `linear` is `0.3`, not `0`. -/
theorem random_turn_keeps_cruising :
    ¬ (|exClearMoved.keyboard_linear| > 0.01 ∨ |exClearMoved.keyboard_angular| > 0.01) ∧
    (beforeTurn exClearMoved 0.2 exVars).turning_angle = 0.2 ∧
    (beforeTurn exClearMoved 0.2 exVars).turning_angle > 0 ∧
    (beforeTurn exClearMoved 0.2 exVars).turning_angle
      > correctAnglePos (exClearMoved.angle - (beforeTurn exClearMoved 0.2 exVars).start_angle) ∧
    (tick exClearMoved 0.2 exVars).angular_wire = angular_speed ∧
    (tick exClearMoved 0.2 exVars).linear_wire = 0.3 ∧
    (tick exClearMoved 0.2 exVars).linear_wire ≠ 0 := by
  norm_num [tick, halt, acceptKeyboard, executeTurn, beforeTurn, stopIfTurning,
    avoidSymmetric, avoidAsymmetric, randomTurn, driveForward, exClearMoved, exVars,
    correctAnglePos_zero, linear_speed, angular_speed]

/-- Claim C6: when the distance `d` from the waypoint `(start_x, start_y)` to the
current position is at most `0.3048` and both minima exceed `0.6`, the iteration
does not depend on the random draw (same published command and same locals for any
two draws), leaves `start_x`, `start_y` and `start_angle` unchanged, and leaves
`turning_angle` at its previous value or cleared to `0`. -/
theorem no_arming_below_threshold (r : Robot α) (v : MoveVars α) (d : α)
    (hd : IsDisplacement r v d) (hle : d ≤ 0.3048)
    (hl : r.left_min > 0.6) (hr : r.right_min > 0.6) :
    (∀ d₁ d₂ : α, tick r d₁ v = tick r d₂ v) ∧
    ∀ draw : α,
      (tick r draw v).start_x = v.start_x ∧ (tick r draw v).start_y = v.start_y ∧
      (tick r draw v).start_angle = v.start_angle ∧
      ((tick r draw v).turning_angle = v.turning_angle ∨ (tick r draw v).turning_angle = 0) := by
  have hb : ∀ draw : α, beforeTurn r draw v = stopIfTurning (driveForward v) := fun draw =>
    beforeTurn_of_clear_near r draw v (fun hm => absurd ((movedPast_iff hd).mp hm)
      (not_lt.mpr hle)) hl hr
  refine ⟨fun d₁ d₂ => ?_, fun draw => ?_⟩
  · unfold tick
    rw [hb d₁, hb d₂]
  · have hf := halt_fields r (acceptKeyboard r (executeTurn r (beforeTurn r draw v)))
    have hk := acceptKeyboard_start r (executeTurn r (beforeTurn r draw v))
    have he := executeTurn_frame r (beforeTurn r draw v)
    have hs := stopIfTurning_frame (driveForward v)
    unfold tick
    refine ⟨?_, ?_, ?_, ?_⟩
    · rw [hf.2.1, hk.1, he.2.1, hb draw, hs.2.1]
      rfl
    · rw [hf.2.2.1, hk.2.1, he.2.2.1, hb draw, hs.2.2.1]
      rfl
    · rw [hf.2.2.2.1, hk.2.2, he.2.2.2, hb draw, hs.2.2.2.1]
      rfl
    · rw [hf.2.2.2.2.2]
      have ht : (beforeTurn r draw v).turning_angle = v.turning_angle := by
        rw [hb draw, hs.2.2.2.2.2]
        rfl
      by_cases hov : overrideActive r
      · exact Or.inr (acceptKeyboard_active_fields hov _).2.2.1
      · rw [acceptKeyboard_of_inactive hov, ← ht]
        exact (executeTurn_turn r _).1

/-- Claim C6, instance: `0.3` from the waypoint with ranges `10` / `10`; draws `0.2`
and `-0.1` give the same iteration and nothing is armed. -/
theorem no_arming_below_threshold_witness :
    IsDisplacement exClearNear exVars 0.3 ∧ (0.3 : ℚ) ≤ 0.3048 ∧
    exClearNear.left_min > 0.6 ∧ exClearNear.right_min > 0.6 ∧
    tick exClearNear 0.2 exVars = tick exClearNear (-0.1) exVars ∧
    (tick exClearNear 0.2 exVars).start_x = 0 ∧
    ((tick exClearNear 0.2 exVars).turning_angle = exVars.turning_angle
      ∨ (tick exClearNear 0.2 exVars).turning_angle = 0) := by
  have hd : IsDisplacement exClearNear exVars 0.3 := by
    norm_num [IsDisplacement, exClearNear, exVars]
  have hl : exClearNear.left_min > 0.6 := by norm_num [exClearNear]
  have hr : exClearNear.right_min > 0.6 := by norm_num [exClearNear]
  have h := no_arming_below_threshold exClearNear exVars 0.3 hd (by norm_num) hl hr
  exact ⟨hd, by norm_num, hl, hr, h.1 0.2 (-0.1), (h.2 0.2).1, (h.2 0.2).2.2.2⟩

/-- Claim C7: with `uninterrupted_turn` false, both minima above `0.6`, the distance
`dist` from the waypoint above `0.3048` and the override inactive, for every drawn
delta `draw` in `[-0.262, 0.262]` the iteration ends with `turning_angle = draw`,
`start_angle` the current heading, `(start_x, start_y)` the current position, and
`uninterrupted_turn` still false. -/
theorem random_turn_arming (r : Robot α) (v : MoveVars α) (draw dist : α)
    (hu : v.uninterrupted_turn = false) (hl : r.left_min > 0.6) (hr : r.right_min > 0.6)
    (hdist : IsDisplacement r v dist) (hgt : dist > 0.3048)
    (hov : ¬ (|r.keyboard_linear| > 0.01 ∨ |r.keyboard_angular| > 0.01))
    (_hdraw : -0.262 ≤ draw ∧ draw ≤ 0.262) :
    (tick r draw v).turning_angle = draw ∧ (tick r draw v).start_angle = r.angle ∧
    (tick r draw v).start_x = r.pos_x ∧ (tick r draw v).start_y = r.pos_y ∧
    (tick r draw v).uninterrupted_turn = false := by
  have hb := beforeTurn_of_clear_moved r draw v ((movedPast_iff hdist).mpr hgt) hu hl hr
  have hf := halt_fields r (executeTurn r (beforeTurn r draw v))
  have he := executeTurn_frame r (beforeTurn r draw v)
  have ht := executeTurn_at_reference r (beforeTurn r draw v) hb.2.1
  unfold tick
  rw [acceptKeyboard_of_inactive hov]
  refine ⟨?_, ?_, ?_, ?_, ?_⟩
  · rw [hf.2.2.2.2.2, ht.1, hb.1]
  · rw [hf.2.2.2.1, he.2.2.2, hb.2.1]
  · rw [hf.2.1, he.2.1, hb.2.2.1]
  · rw [hf.2.2.1, he.2.2.1, hb.2.2.2.1]
  · rw [hf.2.2.2.2.1, ht.2, hb.2.2.2.2]

/-- Claim C7, instance: one metre from the waypoint at heading `0.5`, ranges
`10` / `10`, draw `-0.15`. -/
theorem random_turn_arming_witness :
    IsDisplacement { exClearMoved with angle := 0.5 } exVars 1 ∧
    (tick { exClearMoved with angle := 0.5 } (-0.15) exVars).turning_angle = -0.15 ∧
    (tick { exClearMoved with angle := 0.5 } (-0.15) exVars).start_angle = 0.5 ∧
    (tick { exClearMoved with angle := 0.5 } (-0.15) exVars).start_x = 1 ∧
    (tick { exClearMoved with angle := 0.5 } (-0.15) exVars).start_y = 0 ∧
    (tick { exClearMoved with angle := 0.5 } (-0.15) exVars).uninterrupted_turn = false := by
  have hd : IsDisplacement { exClearMoved with angle := 0.5 } exVars 1 := by
    norm_num [IsDisplacement, exClearMoved, exVars]
  exact ⟨hd, random_turn_arming { exClearMoved with angle := 0.5 } exVars (-0.15) 1 rfl
    (by norm_num [exClearMoved]) (by norm_num [exClearMoved]) hd (by norm_num)
    (by norm_num [exClearMoved]) (by norm_num)⟩

end Claims

/-! ## Further claims on the normalisers -/

section NormaliserClaims

variable [FloorRing α]

theorem posSubLoop_cong (a : α) : ∃ k : ℤ, posSubLoop a = a + k * 6.28 := by
  induction a using posSubLoop.induct with
  | case1 a h ih =>
    obtain ⟨k, hk⟩ := ih
    refine ⟨k - 1, ?_⟩
    rw [posSubLoop_of_gt h, hk]
    push_cast
    ring
  | case2 a h =>
    refine ⟨0, ?_⟩
    rw [posSubLoop_of_le (not_lt.mp h)]
    simp

theorem posAddLoop_cong (a : α) : ∃ k : ℤ, posAddLoop a = a + k * 6.28 := by
  induction a using posAddLoop.induct with
  | case1 a h ih =>
    obtain ⟨k, hk⟩ := ih
    refine ⟨k + 1, ?_⟩
    rw [posAddLoop_of_neg h, hk]
    push_cast
    ring
  | case2 a h =>
    refine ⟨0, ?_⟩
    rw [posAddLoop_of_nonneg (not_lt.mp h)]
    simp

/-- Claim C11: `correctAnglePos` preserves the angle modulo the period `6.28`: for
every `a` there is an integer `k` with `correctAnglePos a = a + k * 6.28`. -/
theorem correctAnglePos_mod_period (a : α) : ∃ k : ℤ, correctAnglePos a = a + k * 6.28 := by
  obtain ⟨k₁, h₁⟩ := posSubLoop_cong a
  obtain ⟨k₂, h₂⟩ := posAddLoop_cong (posSubLoop a)
  refine ⟨k₁ + k₂, ?_⟩
  unfold correctAnglePos
  rw [h₂, h₁]
  push_cast
  ring

theorem posSubLoopFuel_total (a : α) :
    ∃ n : ℕ, ∀ m, n ≤ m → posSubLoopFuel m a = some (posSubLoop a) := by
  induction a using posSubLoop.induct with
  | case1 a h ih =>
    obtain ⟨n, hn⟩ := ih
    refine ⟨n + 1, fun m hm => ?_⟩
    obtain ⟨m', rfl⟩ : ∃ m', m = m' + 1 := ⟨m - 1, by omega⟩
    rw [posSubLoopFuel, if_pos h, posSubLoop_of_gt h]
    exact hn m' (by omega)
  | case2 a h =>
    refine ⟨0, fun m _ => ?_⟩
    rw [posSubLoop_of_le (not_lt.mp h)]
    cases m <;> rw [posSubLoopFuel, if_neg h]

theorem posAddLoopFuel_total (a : α) :
    ∃ n : ℕ, ∀ m, n ≤ m → posAddLoopFuel m a = some (posAddLoop a) := by
  induction a using posAddLoop.induct with
  | case1 a h ih =>
    obtain ⟨n, hn⟩ := ih
    refine ⟨n + 1, fun m hm => ?_⟩
    obtain ⟨m', rfl⟩ : ∃ m', m = m' + 1 := ⟨m - 1, by omega⟩
    rw [posAddLoopFuel, if_pos h, posAddLoop_of_neg h]
    exact hn m' (by omega)
  | case2 a h =>
    refine ⟨0, fun m _ => ?_⟩
    rw [posAddLoop_of_nonneg (not_lt.mp h)]
    cases m <;> rw [posAddLoopFuel, if_neg h]

theorem negSubLoopFuel_total (a : α) :
    ∃ n : ℕ, ∀ m, n ≤ m → negSubLoopFuel m a = some (negSubLoop a) := by
  induction a using negSubLoop.induct with
  | case1 a h ih =>
    obtain ⟨n, hn⟩ := ih
    refine ⟨n + 1, fun m hm => ?_⟩
    obtain ⟨m', rfl⟩ : ∃ m', m = m' + 1 := ⟨m - 1, by omega⟩
    rw [negSubLoopFuel, if_pos h, negSubLoop_of_pos h]
    exact hn m' (by omega)
  | case2 a h =>
    refine ⟨0, fun m _ => ?_⟩
    rw [negSubLoop_of_nonpos (not_lt.mp h)]
    cases m <;> rw [negSubLoopFuel, if_neg h]

theorem negAddLoopFuel_total (a : α) :
    ∃ n : ℕ, ∀ m, n ≤ m → negAddLoopFuel m a = some (negAddLoop a) := by
  induction a using negAddLoop.induct with
  | case1 a h ih =>
    obtain ⟨n, hn⟩ := ih
    refine ⟨n + 1, fun m hm => ?_⟩
    obtain ⟨m', rfl⟩ : ∃ m', m = m' + 1 := ⟨m - 1, by omega⟩
    rw [negAddLoopFuel, if_pos h, negAddLoop_of_lt h]
    exact hn m' (by omega)
  | case2 a h =>
    refine ⟨0, fun m _ => ?_⟩
    rw [negAddLoop_of_ge (not_lt.mp h)]
    cases m <;> rw [negAddLoopFuel, if_neg h]

/-- Claim C12: both normalisers are total.  For every input `a` there is a number `n`
of iterations such that, with any budget of at least `n` iterations per loop, the two
`while` loops of `correctAnglePos` exit and the method returns a value (the value of
`correctAnglePos a`), and likewise for `correctAngleNeg`. -/
theorem correctAngle_total (a : α) :
    (∃ n : ℕ, ∀ m, n ≤ m → correctAnglePosFuel m a = some (correctAnglePos a)) ∧
    (∃ n : ℕ, ∀ m, n ≤ m → correctAngleNegFuel m a = some (correctAngleNeg a)) := by
  constructor
  · obtain ⟨n₁, h₁⟩ := posSubLoopFuel_total a
    obtain ⟨n₂, h₂⟩ := posAddLoopFuel_total (posSubLoop a)
    refine ⟨max n₁ n₂, fun m hm => ?_⟩
    unfold correctAnglePosFuel correctAnglePos
    rw [h₁ m (le_trans (le_max_left _ _) hm), Option.some_bind,
      h₂ m (le_trans (le_max_right _ _) hm)]
  · obtain ⟨n₁, h₁⟩ := negSubLoopFuel_total a
    obtain ⟨n₂, h₂⟩ := negAddLoopFuel_total (negSubLoop a)
    refine ⟨max n₁ n₂, fun m hm => ?_⟩
    unfold correctAngleNegFuel correctAngleNeg
    rw [h₁ m (le_trans (le_max_left _ _) hm), Option.some_bind,
      h₂ m (le_trans (le_max_right _ _) hm)]

end NormaliserClaims

/-! ## Further claims on one iteration of `move` -/

section TurnClaims

theorem halt_of_released {r : Robot α} (h : r.bumper_state = 0) (v : MoveVars α) :
    halt r v = v := by
  unfold halt
  rw [if_neg (not_not.mpr h)]

theorem turnInv_beforeTurn (r : Robot α) (draw : α) (v : MoveVars α) (h : TurnInv v) :
    TurnInv (beforeTurn r draw v) := by
  unfold TurnInv at h ⊢
  unfold beforeTurn
  rw [(stopIfTurning_frame _).2.2.2.2.2, (stopIfTurning_frame _).2.2.2.2.1]
  by_cases hs : r.left_min < 0.4 ∧ r.right_min < 0.4 ∧
      (avoidAsymmetric r (randomTurn r draw (driveForward v))).uninterrupted_turn = false
  · rw [avoidSymmetric_of_close hs]
    intro h0
    have h1 : (-3.14 : α) = 0 := h0
    norm_num at h1
  · rw [avoidSymmetric_of_not hs, (avoidAsymmetric_frame _ _).2.2.2.2,
      (avoidAsymmetric_frame _ _).2.2.2.1, (randomTurn_frame _ _ _).2.2]
    by_cases hr : movedPast r (driveForward v) ∧ (driveForward v).uninterrupted_turn = false ∧
        r.left_min > 0.6 ∧ r.right_min > 0.6
    · exact fun _ => hr.2.1
    · rw [randomTurn_of_not hr]
      exact h

theorem turnInv_executeTurn [FloorRing α] (r : Robot α) (v : MoveVars α) (h : TurnInv v) :
    TurnInv (executeTurn r v) := by
  unfold TurnInv at h ⊢
  unfold executeTurn
  split_ifs
  · exact h
  · exact fun _ => rfl
  · exact h
  · exact fun _ => rfl
  · exact h

theorem turnInv_acceptKeyboard (r : Robot α) (v : MoveVars α) (h : TurnInv v) :
    TurnInv (acceptKeyboard r v) := by
  unfold TurnInv at h ⊢
  unfold acceptKeyboard
  split_ifs
  · exact fun _ => rfl
  · exact h

theorem turnInv_halt (r : Robot α) (v : MoveVars α) (h : TurnInv v) : TurnInv (halt r v) := by
  unfold TurnInv at h ⊢
  rw [(halt_fields r v).2.2.2.2.2, (halt_fields r v).2.2.2.2.1]
  exact h

theorem turnInv_tick [FloorRing α] (r : Robot α) (draw : α) (v : MoveVars α) (h : TurnInv v) :
    TurnInv (tick r draw v) :=
  turnInv_halt r _ (turnInv_acceptKeyboard r _ (turnInv_executeTurn r _
    (turnInv_beforeTurn r draw v h)))

theorem turnInv_runTicks [FloorRing α] (inputs : List (Robot α × α)) :
    ∀ v : MoveVars α, TurnInv v → TurnInv (runTicks v inputs) := by
  induction inputs with
  | nil => exact fun v h => h
  | cons x rest ih =>
    intro v h
    obtain ⟨r, draw⟩ := x
    exact ih _ (turnInv_tick r draw v h)

/-- With the flag down, the half-turn not armed by the symmetric block and one side
closer than `0.305`, only the drive and asymmetric blocks act before the turn block. -/
theorem beforeTurn_of_asym (r : Robot α) (draw : α) (v : MoveVars α)
    (hu : v.uninterrupted_turn = false) (hns : ¬ (r.left_min < 0.4 ∧ r.right_min < 0.4))
    (hc : r.left_min < 0.305 ∨ r.right_min < 0.305) :
    beforeTurn r draw v = avoidAsymmetric r (driveForward v) := by
  have h1 : randomTurn r draw (driveForward v) = driveForward v := by
    refine randomTurn_of_not (r := r) (v := driveForward v) (fun h => ?_) draw
    rcases hc with hc | hc
    · exact absurd (lt_trans hc (lt_trans (by norm_num) h.2.2.1)) (lt_irrefl _)
    · exact absurd (lt_trans hc (lt_trans (by norm_num) h.2.2.2)) (lt_irrefl _)
  have h3 : avoidSymmetric r (avoidAsymmetric r (driveForward v))
      = avoidAsymmetric r (driveForward v) :=
    avoidSymmetric_of_not (fun h => hns ⟨h.1, h.2.1⟩)
  have hflag : (avoidAsymmetric r (driveForward v)).uninterrupted_turn = false := by
    rw [(avoidAsymmetric_frame _ _).2.2.2.1]
    exact hu
  unfold beforeTurn
  rw [h1, h3]
  unfold stopIfTurning
  rw [if_neg (by rw [hflag]; decide)]

/-- Claim C18: the predicate "`turning_angle == 0` implies `uninterrupted_turn == false`"
holds for the locals on entry to the loop, is preserved by every iteration for every
snapshot of the members and every draw, and hence holds after any number of
iterations. -/
theorem turn_invariant [FloorRing α] :
    (∀ r : Robot α, TurnInv (moveInit r)) ∧
    (∀ (r : Robot α) (draw : α) (v : MoveVars α), TurnInv v → TurnInv (tick r draw v)) ∧
    (∀ (r : Robot α) (inputs : List (Robot α × α)), TurnInv (runTicks (moveInit r) inputs)) :=
  ⟨fun _ _ => rfl, turnInv_tick, fun r inputs => turnInv_runTicks inputs (moveInit r) (fun _ => rfl)⟩

/-- Claim C18, instance: the invariant after two iterations, the first boxed in, the
second with a clear view. -/
theorem turn_invariant_witness :
    TurnInv (runTicks (moveInit exBoxedIn) [(exBoxedIn, 0.1), (exClearMoved, 0.2)]) :=
  turn_invariant.2.2 exBoxedIn [(exBoxedIn, 0.1), (exClearMoved, 0.2)]

/-- Claim C19: with no turn pending or active (`turning_angle = 0`,
`uninterrupted_turn = false`), the override inactive, the bumper released and not both
minima below `0.4`: if `left_min < 0.305` the iteration publishes
`angular = -angular_speed` and `linear = linear_speed / 2`; otherwise, if
`right_min < 0.305`, it publishes `angular = +angular_speed` and
`linear = linear_speed / 2`. -/
theorem asymmetric_avoidance [FloorRing α] (r : Robot α) (draw : α) (v : MoveVars α)
    (ht : v.turning_angle = 0) (hu : v.uninterrupted_turn = false)
    (hov : ¬ (|r.keyboard_linear| > 0.01 ∨ |r.keyboard_angular| > 0.01))
    (hb : r.bumper_state = 0) (hns : ¬ (r.left_min < 0.4 ∧ r.right_min < 0.4)) :
    (r.left_min < 0.305 →
      (tick r draw v).angular_wire = -angular_speed ∧
      (tick r draw v).linear_wire = linear_speed / 2) ∧
    (¬ r.left_min < 0.305 → r.right_min < 0.305 →
      (tick r draw v).angular_wire = angular_speed ∧
      (tick r draw v).linear_wire = linear_speed / 2) := by
  have key : r.left_min < 0.305 ∨ r.right_min < 0.305 →
      tick r draw v = avoidAsymmetric r (driveForward v) := by
    intro hc
    have h0 : (avoidAsymmetric r (driveForward v)).turning_angle = 0 := by
      rw [(avoidAsymmetric_frame _ _).2.2.2.2]
      exact ht
    unfold tick
    rw [halt_of_released hb, acceptKeyboard_of_inactive hov, beforeTurn_of_asym r draw v hu hns hc,
      executeTurn_of_zero h0]
  refine ⟨fun hl => ?_, fun hl hr => ?_⟩
  · rw [key (Or.inl hl)]
    unfold avoidAsymmetric
    rw [if_pos hl]
    exact ⟨rfl, rfl⟩
  · rw [key (Or.inr hr)]
    unfold avoidAsymmetric
    rw [if_neg hl, if_pos hr]
    exact ⟨rfl, rfl⟩

/-- Claim C19, instances: an obstacle at `0.2` on the left only, then on the right
only. -/
theorem asymmetric_avoidance_witness :
    ((tick { exClearNear with left_min := 0.2 } 0.1 exVars).angular_wire = -1 ∧
      (tick { exClearNear with left_min := 0.2 } 0.1 exVars).linear_wire = 0.15) ∧
    ((tick { exClearNear with right_min := 0.2 } 0.1 exVars).angular_wire = 1 ∧
      (tick { exClearNear with right_min := 0.2 } 0.1 exVars).linear_wire = 0.15) := by
  have hl := (asymmetric_avoidance { exClearNear with left_min := 0.2 } 0.1 exVars rfl rfl
    (by norm_num [exClearNear]) rfl (by norm_num [exClearNear])).1 (by norm_num)
  have hr := (asymmetric_avoidance { exClearNear with right_min := 0.2 } 0.1 exVars rfl rfl
    (by norm_num [exClearNear]) rfl (by norm_num [exClearNear])).2
    (by norm_num [exClearNear]) (by norm_num)
  refine ⟨⟨?_, ?_⟩, ⟨?_, ?_⟩⟩
  · rw [hl.1]; norm_num [angular_speed]
  · rw [hl.2]; norm_num [linear_speed]
  · rw [hr.1]; norm_num [angular_speed]
  · rw [hr.2]; norm_num [linear_speed]

end TurnClaims

/-! ## The depth image callback -/

section ImageLemmas

theorem isRunningMin_refl {P : α → Prop} (h : ∀ x, ¬ P x) (m : α) : IsRunningMin P m m :=
  ⟨le_refl m, fun x hx => absurd hx (h x), Or.inl rfl⟩

theorem isRunningMin_trans {P Q : α → Prop} {m0 m1 m2 : α} (h1 : IsRunningMin P m0 m1)
    (h2 : IsRunningMin Q m1 m2) : IsRunningMin (fun x => P x ∨ Q x) m0 m2 := by
  refine ⟨le_trans h2.1 h1.1, fun x hx => ?_, ?_⟩
  · rcases hx with hx | hx
    · exact le_trans h2.1 (h1.2.1 x hx)
    · exact h2.2.1 x hx
  · rcases h2.2.2 with e | hq
    · rcases h1.2.2 with e1 | hp
      · exact Or.inl (e.trans e1)
      · exact Or.inr (Or.inl (e ▸ hp))
    · exact Or.inr (Or.inr hq)

theorem isRunningMin_congr {P Q : α → Prop} {m0 m : α} (h : ∀ x, P x ↔ Q x)
    (h1 : IsRunningMin P m0 m) : IsRunningMin Q m0 m :=
  ⟨h1.1, fun x hx => h1.2.1 x ((h x).mpr hx), h1.2.2.imp id (fun hp => (h m).mp hp)⟩

/-- One pass through the body of the inner loop lowers the reading of the half the
column lies in to `d`, when `d` is finite and positive, and leaves the other reading. -/
theorem sampleStep_spec (width c : Int) (d : FloatVal α) (s : Robot α) (left : Bool) :
    IsRunningMin (fun x => decide (c < width.tdiv 2) = left ∧ d = FloatVal.fin x ∧ 0 < x)
      (sideMin left s) (sideMin left (sampleStep width c d s)) := by
  cases d with
  | nan => exact isRunningMin_refl (fun x hx => by simp at hx) _
  | posInf => exact isRunningMin_refl (fun x hx => by simp at hx) _
  | negInf => exact isRunningMin_refl (fun x hx => by simp at hx) _
  | fin y =>
    unfold sampleStep
    by_cases hy : y > 0
    · by_cases hc : c < width.tdiv 2
      · cases left
        · have e : sideMin false
              (if y < s.left_min then { s with left_min := y } else s) = sideMin false s := by
            split_ifs <;> rfl
          simp only [if_pos hy, if_pos hc]
          rw [e]
          exact isRunningMin_refl (fun x hx => by simp [hc] at hx) _
        · simp only [if_pos hy, if_pos hc]
          by_cases hlt : y < s.left_min
          · rw [if_pos hlt]
            refine ⟨le_of_lt hlt, fun x hx => ?_, Or.inr ⟨by simp [hc], rfl, hy⟩⟩
            have := hx.2.1
            simp only [FloatVal.fin.injEq] at this
            exact le_of_eq this
          · rw [if_neg hlt]
            refine ⟨le_refl _, fun x hx => ?_, Or.inl rfl⟩
            have := hx.2.1
            simp only [FloatVal.fin.injEq] at this
            rw [← this]
            exact not_lt.mp hlt
      · cases left
        · simp only [if_pos hy, if_neg hc]
          by_cases hlt : y < s.right_min
          · rw [if_pos hlt]
            refine ⟨le_of_lt hlt, fun x hx => ?_, Or.inr ⟨by simp [hc], rfl, hy⟩⟩
            have := hx.2.1
            simp only [FloatVal.fin.injEq] at this
            exact le_of_eq this
          · rw [if_neg hlt]
            refine ⟨le_refl _, fun x hx => ?_, Or.inl rfl⟩
            have := hx.2.1
            simp only [FloatVal.fin.injEq] at this
            rw [← this]
            exact not_lt.mp hlt
        · have e : sideMin true
              (if y < s.right_min then { s with right_min := y } else s) = sideMin true s := by
            split_ifs <;> rfl
          simp only [if_pos hy, if_neg hc]
          rw [e]
          exact isRunningMin_refl (fun x hx => by simp [hc] at hx) _
    · simp only [if_neg hy]
      refine isRunningMin_refl (fun x hx => ?_) _
      have := hx.2.1
      simp only [FloatVal.fin.injEq] at this
      exact hy (this ▸ hx.2.2)

/-- The inner loop over the columns `c .. c + n - 1` of row `r`, all inside the
buffer, exits normally and lowers each reading to the finite positive distances of
its half among those columns. -/
theorem scanCols_spec (dec : Int → Option (FloatVal α)) (width r : Int) :
    ∀ (n : ℕ) (c : Int) (s : Robot α),
      (∀ c' : Int, c ≤ c' → c' < c + n → (dec (c' + r * width)).isSome = true) →
      ∃ s', scanCols dec width r n c s = some s' ∧
        ∀ left : Bool, IsRunningMin
          (fun x => ∃ c' : Int, c ≤ c' ∧ c' < c + n ∧ IsSampleAt dec width r c' left x)
          (sideMin left s) (sideMin left s') := by
  intro n
  induction n with
  | zero =>
    intro c s _
    refine ⟨s, rfl, fun left => isRunningMin_refl (fun x hx => ?_) _⟩
    obtain ⟨c', h1, h2, _⟩ := hx
    simp only [Nat.cast_zero, add_zero] at h2
    exact absurd h1 (not_le.mpr h2)
  | succ n ih =>
    intro c s hin
    have hc := hin c (le_refl c) (by push_cast; omega)
    obtain ⟨d, hd⟩ := Option.isSome_iff_exists.mp hc
    obtain ⟨s', hs', hmin⟩ := ih (c + 1) (sampleStep width c d s)
      (fun c' h1 h2 => hin c' (by omega) (by push_cast; omega))
    refine ⟨s', ?_, fun left => ?_⟩
    · rw [scanCols, hd]
      exact hs'
    · refine isRunningMin_congr (fun x => ?_)
        (isRunningMin_trans (sampleStep_spec width c d s left) (hmin left))
      constructor
      · rintro (⟨h1, h2, h3⟩ | ⟨c', h1, h2, h3⟩)
        · exact ⟨c, le_refl c, by push_cast; omega, h1, by rw [hd, h2], h3⟩
        · exact ⟨c', by omega, by push_cast; omega, h3⟩
      · rintro ⟨c', h1, h2, h3⟩
        rcases eq_or_lt_of_le h1 with e | hlt
        · subst e
          refine Or.inl ⟨h3.1, ?_, h3.2.2⟩
          have := h3.2.1
          rw [hd] at this
          exact Option.some.inj this
        · push_cast at h2
          exact Or.inr ⟨c', by omega, by omega, h3⟩

/-- The outer loop over the rows `r .. r + k - 1`, all inside the buffer, exits
normally and lowers each reading to the finite positive distances of its half in
those rows. -/
theorem scanRows_spec (dec : Int → Option (FloatVal α)) (width : Int) :
    ∀ (k : ℕ) (r : Int) (s : Robot α),
      (∀ r' c : Int, r ≤ r' → r' < r + k → 0 ≤ c → c < width →
        (dec (c + r' * width)).isSome = true) →
      ∃ s', scanRows dec width k r s = some s' ∧
        ∀ left : Bool, IsRunningMin
          (fun x => ∃ r' c : Int, r ≤ r' ∧ r' < r + k ∧ 0 ≤ c ∧ c < width ∧
            IsSampleAt dec width r' c left x)
          (sideMin left s) (sideMin left s') := by
  intro k
  induction k with
  | zero =>
    intro r s _
    refine ⟨s, rfl, fun left => isRunningMin_refl (fun x hx => ?_) _⟩
    obtain ⟨r', c, h1, h2, _⟩ := hx
    simp only [Nat.cast_zero, add_zero] at h2
    exact absurd h1 (not_le.mpr h2)
  | succ k ih =>
    intro r s hin
    obtain ⟨s1, hs1, hmin1⟩ := scanCols_spec dec width r width.toNat 0 s
      (fun c h1 h2 => hin r c (le_refl r) (by push_cast; omega) h1 (by omega))
    obtain ⟨s', hs', hmin⟩ := ih (r + 1) s1
      (fun r' c h1 h2 h3 h4 => hin r' c (by omega) (by push_cast; omega) h3 h4)
    refine ⟨s', ?_, fun left => ?_⟩
    · rw [scanRows, hs1]
      exact hs'
    · refine isRunningMin_congr (fun x => ?_) (isRunningMin_trans (hmin1 left) (hmin left))
      constructor
      · rintro (⟨c, h1, h2, h3⟩ | ⟨r', c, h1, h2, h3, h4, h5⟩)
        · exact ⟨r, c, le_refl r, by push_cast; omega, h1, by omega, h3⟩
        · exact ⟨r', c, by omega, by push_cast; omega, h3, h4, h5⟩
      · rintro ⟨r', c, h1, h2, h3, h4, h5⟩
        rcases eq_or_lt_of_le h1 with e | hlt
        · subst e
          exact Or.inl ⟨c, h3, by omega, h5⟩
        · push_cast at h2
          exact Or.inr ⟨r', c, by omega, by omega, h3, h4, h5⟩

theorem getImage_of_32FC1 {msg : ImageMsg α} (h : msg.encoding = "32FC1") (s : Robot α) :
    getImage msg s = scanRows (decode32 msg) msg.width 5 (msg.height.tdiv 2 - 2)
      { s with right_min := 10, left_min := 10 } := by
  unfold getImage
  rw [if_pos h]

/-- In the `16UC1` branch with at least one column the first read of the inner loop
is outside the buffer: the callback does not return. -/
theorem getImage_of_16UC1 {msg : ImageMsg α} (h : msg.encoding = "16UC1")
    (hw : 1 ≤ msg.width) (s : Robot α) : getImage msg s = none := by
  have hne : msg.encoding ≠ "32FC1" := by
    rw [h]
    decide
  obtain ⟨n, hn⟩ : ∃ n : ℕ, msg.width.toNat = n + 1 := ⟨msg.width.toNat - 1, by omega⟩
  unfold getImage
  rw [if_neg hne, if_pos h, scanRows, hn, scanCols]
  rfl

theorem getImage_of_unknown {msg : ImageMsg α} (h1 : msg.encoding ≠ "32FC1")
    (h2 : msg.encoding ≠ "16UC1") (s : Robot α) :
    getImage msg s = some { s with right_min := 10, left_min := 10 } := by
  unfold getImage
  rw [if_neg h1, if_neg h2]

/-- For the `32FC1` encoding and a band that lies inside the buffer, `getImage`
returns, and each reading is `10` lowered to the band distances of its half. -/
theorem getImage_spec {msg : ImageMsg α} (henc : msg.encoding = "32FC1")
    (hin : BandInBuffer (decode32 msg) msg.width msg.height) (s : Robot α) :
    ∃ s', getImage msg s = some s' ∧
      ∀ left : Bool, IsRunningMin (IsBandDistance (decode32 msg) msg.width msg.height left) 10
        (sideMin left s') := by
  obtain ⟨s', hs', hmin⟩ := scanRows_spec (decode32 msg) msg.width 5 (msg.height.tdiv 2 - 2)
    { s with right_min := 10, left_min := 10 }
    (fun r c h1 h2 h3 h4 => hin r c h1 (by push_cast at h2; omega) h3 h4)
  refine ⟨s', (getImage_of_32FC1 henc s).trans hs', fun left => ?_⟩
  have h10 : sideMin left { s with right_min := 10, left_min := 10 } = 10 := by
    cases left <;> rfl
  have := hmin left
  rw [h10] at this
  refine isRunningMin_congr (fun x => ?_) this
  unfold IsBandDistance
  constructor
  · rintro ⟨r, c, h1, h2, h3, h4, h5⟩
    exact ⟨r, c, h1, by push_cast at h2; omega, h3, h4, h5⟩
  · rintro ⟨r, c, h1, h2, h3, h4, h5⟩
    exact ⟨r, c, h1, by push_cast; omega, h3, h4, h5⟩

/-- The index arithmetic of the two loops for an image of at least five rows. -/
theorem band_index_bounds {width height r c : Int} (hw : 1 ≤ width) (hh : 5 ≤ height)
    (h1 : height.tdiv 2 - 2 ≤ r) (h2 : r ≤ height.tdiv 2 + 2) (h3 : 0 ≤ c) (h4 : c < width) :
    0 ≤ c + r * width ∧ c + r * width < width * height := by
  have e : height.tdiv 2 = height / 2 := Int.tdiv_eq_ediv (by omega) (by norm_num)
  rw [e] at h1 h2
  have hr0 : 0 ≤ r := by omega
  have hr1 : r + 1 ≤ height := by omega
  constructor
  · nlinarith
  · nlinarith

theorem readAt_isSome {β : Type} (buf : List β) (i : Int) (h0 : 0 ≤ i)
    (h1 : i < (buf.length : Int)) : (readAt buf i).isSome = true := by
  unfold readAt
  rw [if_pos h0]
  have : i.toNat < buf.length := by omega
  simp [this]

theorem readAt_mem {β : Type} {buf : List β} {i : Int} {x : β} (h : readAt buf i = some x) :
    x ∈ buf := by
  unfold readAt at h
  split_ifs at h
  exact List.getElem?_mem h

/-- A buffer of `width * height` floats under an image of at least five rows holds
every sample of the band. -/
theorem bandInBuffer_decode32 (msg : ImageMsg α) (hh : 5 ≤ msg.height)
    (hlen : (msg.floats.length : Int) = msg.width * msg.height) :
    BandInBuffer (decode32 msg) msg.width msg.height := by
  intro r c h1 h2 h3 h4
  have hb := band_index_bounds (by omega) hh h1 h2 h3 h4
  unfold decode32
  rw [Option.isSome_map']
  exact readAt_isSome _ _ hb.1 (by rw [hlen]; exact hb.2)

/-- In `exImageOne raw` the only sample that can decode to a finite number is the
one holding `raw`. -/
theorem exImageOne_distance {raw x : ℚ} {left : Bool}
    (h : IsBandDistance (decode32 (exImageOne raw)) 10 5 left x) : x = raw / 2 := by
  obtain ⟨r, c, _, _, _, _, _, hd, _⟩ := h
  unfold decode32 at hd
  obtain ⟨v, hv, hx⟩ := Option.map_eq_some'.mp hd
  have hmem := readAt_mem hv
  simp only [exImageOne, List.mem_append, List.mem_replicate, List.mem_cons] at hmem
  rcases hmem with ⟨_, e⟩ | e | ⟨_, e⟩
  · rw [e] at hx
    exact absurd hx (by simp [FloatVal.half])
  · rw [e] at hx
    simp only [FloatVal.half, FloatVal.fin.injEq] at hx
    exact hx.symm
  · rw [e] at hx
    exact absurd hx (by simp [FloatVal.half])

/-- In `exImageOne raw` with `raw > 0` the left half has the band distance `raw / 2`,
from the sample at row `2`, column `0`. -/
theorem exImageOne_left {raw : ℚ} (h : 0 < raw) :
    IsBandDistance (decode32 (exImageOne raw)) 10 5 true (raw / 2) :=
  ⟨2, 0, by decide, by decide, by decide, by decide, by decide, rfl, by positivity⟩

theorem exImageOne_inBuffer (raw : ℚ) :
    BandInBuffer (decode32 (exImageOne raw)) (exImageOne raw).width (exImageOne raw).height :=
  bandInBuffer_decode32 (exImageOne raw) (by norm_num [exImageOne]) (by simp [exImageOne])

end ImageLemmas

section ImageClaims

/-- Claim C13, as amended: for the `32FC1` encoding (decoded as raw/2) and a band
inside the buffer, `getImage` returns, and the reading of each half is the smaller of
`10` and the minimum decoded distance `m` over the finite positive samples of that
half.  It is that minimum itself whenever some finite positive sample of the half
decodes to less than `10`.  Nothing is said here of the `16UC1` branch. -/
theorem range_minimum (msg : ImageMsg α) (s : Robot α) (henc : msg.encoding = "32FC1")
    (hin : BandInBuffer (decode32 msg) msg.width msg.height) (left : Bool) :
    ∃ s', getImage msg s = some s' ∧
      (∀ m, IsBandDistance (decode32 msg) msg.width msg.height left m →
        (∀ x, IsBandDistance (decode32 msg) msg.width msg.height left x → m ≤ x) →
        sideMin left s' = min 10 m) ∧
      ((∃ x, IsBandDistance (decode32 msg) msg.width msg.height left x ∧ x < 10) →
        IsBandDistance (decode32 msg) msg.width msg.height left (sideMin left s') ∧
        ∀ x, IsBandDistance (decode32 msg) msg.width msg.height left x →
          sideMin left s' ≤ x) := by
  obtain ⟨s', hs', hmin⟩ := getImage_spec henc hin s
  obtain ⟨h1, h2, h3⟩ := hmin left
  refine ⟨s', hs', fun m hm hle => ?_, fun hx => ?_⟩
  · rcases h3 with e | hd
    · rw [e, min_eq_left]
      rw [← e]
      exact h2 m hm
    · have e : sideMin left s' = m := le_antisymm (h2 m hm) (hle _ hd)
      rw [e, min_eq_right]
      rw [← e]
      exact h1
  · obtain ⟨x, hx1, hx2⟩ := hx
    refine ⟨?_, h2⟩
    rcases h3 with e | hd
    · have := h2 x hx1
      rw [e] at this
      exact absurd hx2 (not_lt.mpr this)
    · exact hd

/-- Claim C13, instance: a `32FC1` image of width `10` whose only finite positive
sample, at column `0`, holds `3` and decodes to `1.5`: `left_min` is `1.5`. -/
theorem range_minimum_witness :
    (exImageOne 3).encoding = "32FC1" ∧
    ∃ s', getImage (exImageOne 3) exBoxedIn = some s' ∧ s'.left_min = 1.5 := by
  obtain ⟨s', hs', h1, _⟩ := range_minimum (exImageOne 3) exBoxedIn rfl
    (exImageOne_inBuffer 3) true
  refine ⟨rfl, s', hs', ?_⟩
  have h := h1 (3 / 2) (exImageOne_left (by norm_num))
    (fun x hx => le_of_eq (exImageOne_distance hx).symm)
  have e : sideMin true s' = s'.left_min := rfl
  rw [← e, h]
  norm_num

/-- Claim C13, counterexample: a `32FC1` image of width `10` and height `5` whose only
finite positive sample, at column `0`, holds `30` and decodes to `15`.  The left half's
minimum decoded distance is `15`, yet `left_min` is `10`. -/
theorem far_sample_capped :
    IsBandDistance (decode32 (exImageOne 30)) 10 5 true 15 ∧
    (∀ x, IsBandDistance (decode32 (exImageOne 30)) 10 5 true x → x = 15) ∧
    ∃ s', getImage (exImageOne 30) exBoxedIn = some s' ∧ s'.left_min = 10 ∧
      s'.left_min ≠ 15 := by
  have hd : IsBandDistance (decode32 (exImageOne 30)) 10 5 true 15 := by
    have h : IsBandDistance (decode32 (exImageOne 30)) 10 5 true (30 / 2) :=
      exImageOne_left (by norm_num)
    norm_num at h
    exact h
  have hall : ∀ x, IsBandDistance (decode32 (exImageOne 30)) 10 5 true x → x = 15 := by
    intro x hx
    rw [exImageOne_distance hx]
    norm_num
  have henc : (exImageOne 30).encoding = "32FC1" := rfl
  obtain ⟨s', hs', hmin⟩ := getImage_spec henc (exImageOne_inBuffer 30) exBoxedIn
  obtain ⟨h1, _, h3⟩ := hmin true
  have e : sideMin true s' = s'.left_min := rfl
  rw [e] at h1 h3
  have h10 : s'.left_min = 10 := by
    rcases h3 with h | h
    · exact h
    · have := hall _ h
      rw [this] at h1
      norm_num at h1
  refine ⟨hd, hall, s', hs', h10, ?_⟩
  rw [h10]
  norm_num

/-- The sentinel property on the `32FC1` branch: for a band inside the buffer,
`getImage` returns and a half with no finite positive sample ends at `10`; so when
every sample of the band is non-finite or `≤ 0`, both `left_min` and `right_min` are
`10`, whatever they were before the call. -/
theorem range_sentinel_32FC1 (msg : ImageMsg α) (s : Robot α)
    (henc : msg.encoding = "32FC1")
    (hin : BandInBuffer (decode32 msg) msg.width msg.height) :
    ∃ s', getImage msg s = some s' ∧
      (∀ left : Bool, (∀ x, ¬ IsBandDistance (decode32 msg) msg.width msg.height left x) →
        sideMin left s' = 10) ∧
      ((∀ r c : Int, msg.height.tdiv 2 - 2 ≤ r → r ≤ msg.height.tdiv 2 + 2 → 0 ≤ c →
          c < msg.width →
          ∀ x, decode32 msg (c + r * msg.width) = some (FloatVal.fin x) → x ≤ 0) →
        s'.left_min = 10 ∧ s'.right_min = 10) := by
  obtain ⟨s', hs', hmin⟩ := getImage_spec henc hin s
  have key : ∀ left : Bool,
      (∀ x, ¬ IsBandDistance (decode32 msg) msg.width msg.height left x) →
      sideMin left s' = 10 := by
    intro left hno
    rcases (hmin left).2.2 with e | hd
    · exact e
    · exact absurd hd (hno _)
  refine ⟨s', hs', key, fun hall => ?_⟩
  have hno : ∀ left : Bool, ∀ x,
      ¬ IsBandDistance (decode32 msg) msg.width msg.height left x := by
    rintro left x ⟨r, c, h1, h2, h3, h4, _, h5, h6⟩
    exact absurd h6 (not_lt.mpr (hall r c h1 h2 h3 h4 x h5))
  exact ⟨key true (hno true), key false (hno false)⟩

/-- Claim C14, failing input: a `16UC1` message of width `10` and height `5` whose
samples are all `0` arrives while the readings are `0.2` / `0.2`.  Every sample of the
band is `≤ 0`, so the claim asks for `left_min = right_min = 10`; but the first read
of the `16UC1` branch goes through the pointer of line 108 and is outside the buffer,
and `getImage` does not return. -/
theorem blank_16UC1_image_fails :
    exImageBlank.encoding = "16UC1" ∧ (∀ n ∈ exImageBlank.words, n = 0) ∧
    exBoxedIn.left_min = 0.2 ∧ exBoxedIn.right_min = 0.2 ∧
    getImage exImageBlank exBoxedIn = none ∧
    ¬ ∃ s', getImage exImageBlank exBoxedIn = some s' ∧ s'.left_min = 10 ∧
      s'.right_min = 10 := by
  have hnone : getImage exImageBlank exBoxedIn = none :=
    getImage_of_16UC1 rfl (by decide) exBoxedIn
  refine ⟨rfl, fun n hn => ?_, rfl, rfl, hnone, ?_⟩
  · simp only [exImageBlank, List.mem_replicate] at hn
    exact hn.2
  · rintro ⟨s', hs', _⟩
    rw [hnone] at hs'
    exact absurd hs' (by simp)

/-- Claim C15: for an encoding that is neither `32FC1` nor `16UC1` and any previous
reading, `getImage` returns and leaves `left_min = right_min = 10`; and the outcome of
a call does not depend on the readings before it. -/
theorem unknown_encoding_sentinel (msg : ImageMsg α) (s : Robot α)
    (h1 : msg.encoding ≠ "32FC1") (h2 : msg.encoding ≠ "16UC1") :
    (∃ s', getImage msg s = some s' ∧ s'.left_min = 10 ∧ s'.right_min = 10) ∧
    ∀ l r : α, getImage msg { s with left_min := l, right_min := r } = getImage msg s :=
  ⟨⟨_, getImage_of_unknown h1 h2 s, rfl, rfl⟩, fun _ _ => rfl⟩

/-- Claim C15, instance: a `mono8` image arriving while the readings are `0.2` / `0.2`. -/
theorem unknown_encoding_sentinel_witness :
    exImageMono.encoding ≠ "32FC1" ∧ exImageMono.encoding ≠ "16UC1" ∧
    ∃ s', getImage exImageMono exBoxedIn = some s' ∧ s'.left_min = 10 ∧ s'.right_min = 10 :=
  ⟨by decide, by decide,
    (unknown_encoding_sentinel exImageMono exBoxedIn (by decide) (by decide)).1⟩

/-- Claim C16, as amended: for an encoding that is neither `32FC1` nor `16UC1` and a
previous reading `(l, r)`, after `getImage` both `left_min` and `right_min` are `10`;
the previous reading is retained only when it was `(10, 10)` already. -/
theorem unknown_encoding_resets (msg : ImageMsg α) (s : Robot α)
    (h1 : msg.encoding ≠ "32FC1") (h2 : msg.encoding ≠ "16UC1") :
    ∃ s', getImage msg s = some s' ∧ s'.left_min = 10 ∧ s'.right_min = 10 ∧
      ((s'.left_min = s.left_min ∧ s'.right_min = s.right_min) ↔
        (s.left_min = 10 ∧ s.right_min = 10)) := by
  refine ⟨_, getImage_of_unknown h1 h2 s, rfl, rfl, ?_⟩
  constructor
  · rintro ⟨e1, e2⟩
    exact ⟨e1.symm, e2.symm⟩
  · rintro ⟨e1, e2⟩
    exact ⟨e1.symm, e2.symm⟩

/-- Claim C16, instance: a `mono8` image arriving while the readings are `10` / `10`. -/
theorem unknown_encoding_resets_witness :
    exImageMono.encoding ≠ "32FC1" ∧ exImageMono.encoding ≠ "16UC1" ∧
    ∃ s', getImage exImageMono exClearNear = some s' ∧ s'.left_min = 10 ∧ s'.right_min = 10 ∧
      s'.left_min = exClearNear.left_min := by
  obtain ⟨s', hs', e1, e2, h⟩ := unknown_encoding_resets exImageMono exClearNear
    (by decide) (by decide)
  exact ⟨by decide, by decide, s', hs', e1, e2, (h.mpr ⟨rfl, rfl⟩).1⟩

/-- Claim C16, counterexample: a `mono8` image arriving while the readings are
`0.2` / `0.2`: afterwards `left_min` is `10`, not `0.2`. -/
theorem unknown_encoding_drops_reading :
    exImageMono.encoding ≠ "32FC1" ∧ exImageMono.encoding ≠ "16UC1" ∧
    exBoxedIn.left_min = 0.2 ∧
    ∃ s', getImage exImageMono exBoxedIn = some s' ∧ s'.left_min = 10 ∧
      s'.left_min ≠ exBoxedIn.left_min := by
  refine ⟨by decide, by decide, rfl, _, getImage_of_unknown (by decide) (by decide) exBoxedIn,
    rfl, ?_⟩
  norm_num [exBoxedIn]

end ImageClaims

end ExplorerRobot
